import Mathlib

/-!
Verification of the QF_auto batch-sweep automation layer
(`src/QF_auto/workflow.py`, `geometry.py`, `solve.py`) against its
natural-language specification.  Python floats are idealised as exact
rationals; the unstable COM host surface is modelled by explicit host
oracles recording, per call site, whether the call succeeds.
-/

namespace QF

/-- Python `round(x)` on a rational scaled value: nearest integer, ties to
even (banker's rounding), as CPython implements `round`. -/
def roundHalfEven (q : ℚ) : ℤ :=
  let f := ⌊q⌋
  let r := q - (f : ℚ)
  if r < 1/2 then f
  else if 1/2 < r then f + 1
  else if f % 2 = 0 then f else f + 1

/-- Python `round(x, k)` idealised over ℚ. -/
def roundDec (k : ℕ) (q : ℚ) : ℚ := ((roundHalfEven (q * 10 ^ k) : ℤ) : ℚ) / 10 ^ k

/-- The float literal `1e-9` used as tolerance throughout `workflow.py`. -/
def eps9 : ℚ := 1 / 10 ^ 9

/-- `int(length / step)` from `_positions_line`, where
`length = (dx*dx + dy*dy) ** 0.5`.  Computed exactly over ℚ from the
squared length: `⌊√q / s⌋ = Nat.sqrt ⌊q / s²⌋` for `0 ≤ q`, `0 < s`
(certified by `floorLenDiv_eq` below). -/
def floorLenDiv (lengthSq step : ℚ) : ℕ := Nat.sqrt ⌊lengthSq / (step * step)⌋₊

/-- Shallow embedding of `_positions_line` (workflow.py lines 179-192).
`none` models the `ValueError` raised for `step <= 0`.  The branch
`length <= 1e-9` is expressed on the squared length (`lengthSq ≤ (1e-9)²`),
and `int(length/step)` as `floorLenDiv` — both exact reformulations of the
source's square-root arithmetic, certified by `sqrt_le_iff_mul_self` and
`floorLenDiv_eq`. -/
def positions_line (x0 y0 x1 y1 step : ℚ) : Option (List (ℚ × ℚ)) :=
  if step ≤ 0 then none
  else
    let dx := x1 - x0
    let dy := y1 - y0
    let lengthSq := dx * dx + dy * dy
    if lengthSq ≤ eps9 * eps9 then some [(roundDec 6 x0, roundDec 6 y0)]
    else
      let steps := max 1 (floorLenDiv lengthSq step)
      some ((List.range (steps + 1)).map fun i : ℕ =>
        (roundDec 6 (x0 + dx * (i : ℚ) / (steps : ℚ)),
         roundDec 6 (y0 + dy * (i : ℚ) / (steps : ℚ))))

/-! Entity moves: `geometry.try_move` (lines 17-40) and `geometry.move_vertex`
(lines 439-468).  The unstable COM surface is a `MoveHost` oracle saying which
call forms complete without raising. -/

/-- Candidate call forms for moving one entity:
`Move()`, `Move(dx, dy)`, `Move(PointXY)`, `Move(PointXY, PointXY)`,
wholesale reassignment `target.Point = PointXY(x0+dx, y0+dy)`, and individual
mutation of `Point.X` / `Point.Y`. -/
inductive MoveForm
  | moveNoArg
  | moveDxDy
  | movePt
  | movePtPt
  | assignPt
  | setXY
deriving DecidableEq, Repr

/-- Host oracle for one entity-move call: which forms succeed, whether
`qf.PointXY(...)` construction succeeds, and whether the entity's point and
its X/Y fields can be read. -/
structure MoveHost where
  pointXYOk : Bool
  ok : MoveForm → Bool
  pointReadOk : Bool
  xyReadOk : Bool

/-- Shallow embedding of `geometry.try_move`: builds the attempt list
(`Move(dx,dy)`, `Move(PointXY)`, `Move(PointXY,PointXY)` when `PointXY`
constructs, else only `Move(dx,dy)`), prepends `Move()`, and returns the
identifier of the first form that completes without error. -/
def try_move (h : MoveHost) : Option MoveForm :=
  let attempts :=
    if h.pointXYOk then [MoveForm.moveDxDy, MoveForm.movePt, MoveForm.movePtPt]
    else [MoveForm.moveDxDy]
  (MoveForm.moveNoArg :: attempts).find? h.ok

/-- Shallow embedding of `geometry.move_vertex`: first `try_move`; then, when
the point and its coordinates are readable, wholesale point reassignment
(guarded by `PointXY` construction), then individual X/Y mutation; finally a
bare `vtx.Move()`.  Returns the succeeding form, `none` when every attempt
fails. -/
def move_vertex (h : MoveHost) : Option MoveForm :=
  match try_move h with
  | some f => some f
  | none =>
    if h.pointReadOk then
      if h.xyReadOk then
        if h.pointXYOk && h.ok MoveForm.assignPt then some MoveForm.assignPt
        else if h.ok MoveForm.setXY then some MoveForm.setXY
        else if h.ok MoveForm.moveNoArg then some MoveForm.moveNoArg else none
      else if h.ok MoveForm.moveNoArg then some MoveForm.moveNoArg else none
    else if h.ok MoveForm.moveNoArg then some MoveForm.moveNoArg else none

/-- The invocation order asserted by the spec for `moveEntity`: (1) whole-object
move taking a single displacement vector, (2) move taking two scalar deltas,
(3) no-argument move, (4) wholesale point reassignment, (5) individual X/Y
field mutation. -/
def claimedOrder : List MoveForm :=
  [MoveForm.movePt, MoveForm.moveDxDy, MoveForm.moveNoArg, MoveForm.assignPt, MoveForm.setXY]

/-- Resolver following the spec's claimed order (first success wins). -/
def claimed_move (h : MoveHost) : Option MoveForm := claimedOrder.find? h.ok

/-- The order the code actually attempts, as a single ranked list (bare
`Move()` first; the point-based fallbacks only when the point and its
coordinates are readable; wholesale reassignment only when `PointXY`
constructs). -/
def codeOrder (h : MoveHost) : List MoveForm :=
  MoveForm.moveNoArg ::
    (if h.pointXYOk then [MoveForm.moveDxDy, MoveForm.movePt, MoveForm.movePtPt]
     else [MoveForm.moveDxDy]) ++
    (if h.pointReadOk && h.xyReadOk then
      (if h.pointXYOk then [MoveForm.assignPt, MoveForm.setXY] else [MoveForm.setXY])
     else [])

/-- Host with every call form succeeding. -/
def allOkHost : MoveHost :=
  { pointXYOk := true, ok := fun _ => true, pointReadOk := true, xyReadOk := true }

/-! Solve retry: `solve.solve_problem` (lines 65-101). -/

/-- Lower-case a string character-wise (Python `str.lower` on the messages
involved here). -/
def lowerStr (s : String) : List Char := s.toList.map Char.toLower

/-- Substring test (Python `needle in hay`) on character lists. -/
def containsSub (needle hay : List Char) : Bool :=
  hay.tails.any fun t => needle.isPrefixOf t

/-- The transient-failure test of solve.py lines 81-82 / 93-94:
`"has no mesh" in msg.lower() and "air" in msg.lower()`. -/
def transientMsg (msg : String) : Bool :=
  containsSub "has no mesh".toList (lowerStr msg) &&
    containsSub "air".toList (lowerStr msg)

/-- Host oracle for `solve_problem`: whether the problem object exposes a
`SolveProblem`/`Solve` method, whether a model was passed, and the outcomes
(`none` = success, `some msg` = exception message) of the first and the retried
solve call. -/
structure SolveHost where
  hasSolve : Bool
  modelPresent : Bool
  first : Option String
  second : Option String

/-- Message of the exception `_try_solve` synthesises when the problem object
exposes neither method. -/
def noMethodMsg : String := "No SolveProblem/Solve method on problem."

/-- Outcome of one `_try_solve` call given the host's raw outcome `o`. -/
def trySolveOutcome (h : SolveHost) (o : Option String) : Option String :=
  if h.hasSolve then o else some noMethodMsg

/-- Shallow embedding of `solve.solve_problem`, returning the boolean result
together with the number of solve calls issued (1 or 2).  The best-effort
`build_mesh` before the retry, the bounded busy-wait and `AnalyzeResults` have
no effect on the returned value and are abstracted away. -/
def solve_problem (h : SolveHost) : Bool × ℕ :=
  match trySolveOutcome h h.first with
  | none => (true, 1)
  | some msg =>
    if transientMsg msg then
      if h.modelPresent then
        match trySolveOutcome h h.second with
        | none => (true, 2)
        | some msg2 => (transientMsg msg2, 2)
      else (true, 1)
    else (false, 1)

/-! Case generation: `_cases_from_mapping_pair` (workflow.py lines 161-176).
Python dicts are modelled as insertion-ordered association lists with distinct
keys. -/

/-- Shallow embedding of `_cases_from_mapping_pair`.  `none` models the
`ValueError` raised when the per-label value counts are not all equal; the
`counts.dedup` step mirrors `set(counts.values())` for a dict with distinct
keys.  `n` is the first label's count, as `next(iter(counts.values()))`. -/
def cases_from_mapping_pair : List (String × List ℚ) → Option (List (List (String × ℚ)))
  | [] => some []
  | [(name, vals)] => some (vals.map fun v => [(name, v)])
  | m@(nv0 :: _ :: _) =>
    if ((m.map fun nv => nv.2.length).dedup.length ≠ 1) then none
    else some ((List.range nv0.2.length).map fun i => m.map fun nv => (nv.1, nv.2.getD i 0))

/-! Vertex collection: `_collect_vertices_for_labels` (geometry.py lines
574-652). -/

/-- A host vertex: `pt` is the result of reading `vtx.Point.X` / `.Y`
(`none` when the read raises). -/
structure GVtx where
  pt : Option (ℚ × ℚ)
deriving DecidableEq, Repr

/-- A host block for one label: `vertsA` models `blk.Vertices`, `selVerts` the
`Blocks.LabeledAs("", "", label).Vertices` fallback, `edges` the `blk.Edges`
last resort with each edge's `Start`/`End` point reads. -/
structure GBlock where
  vertsA : Option (List GVtx)
  selVerts : Option (List GVtx)
  edges : Option (List (Option (ℚ × ℚ) × Option (ℚ × ℚ)))

/-- A host model: `_find_block_by_label` as a partial map from label to block. -/
structure GModel where
  blocks : String → Option GBlock

/-- Rounded-coordinate key: `(round(X, 9), round(Y, 9))`. -/
def vtxKey (p : ℚ × ℚ) : ℚ × ℚ := (roundDec 9 p.1, roundDec 9 p.2)

/-- Accumulator of `_collect_vertices_for_labels`: collected vertices plus the
set (held as a list) of rounded keys already seen. -/
structure CollectSt where
  vertices : List GVtx
  seen : List (ℚ × ℚ)

/-- Embedding of the inner `_add_vertex`: skip when the rounded key was seen;
a vertex whose point is unreadable is always appended (no key). -/
def addVertex (st : CollectSt) (v : GVtx) : CollectSt :=
  match v.pt with
  | some p =>
    let k := vtxKey p
    if k ∈ st.seen then st
    else { vertices := st.vertices ++ [v], seen := st.seen ++ [k] }
  | none => { st with vertices := st.vertices ++ [v] }

/-- Embedding of the inner `_add_point_obj`: an unreadable point is dropped;
otherwise dedup by rounded key and append the point as a vertex-like object. -/
def addPointObj (st : CollectSt) (p? : Option (ℚ × ℚ)) : CollectSt :=
  match p? with
  | none => st
  | some p =>
    let k := vtxKey p
    if k ∈ st.seen then st
    else { vertices := st.vertices ++ [GVtx.mk (some p)], seen := st.seen ++ [k] }

/-- Per-label body of the collection loop: block vertices, else selection
vertices, else edge endpoints (Start then End per edge); missing block or all
sources unavailable contribute nothing. -/
def collectForLabel (m : GModel) (st : CollectSt) (label : String) : CollectSt :=
  match m.blocks label with
  | none => st
  | some blk =>
    match (match blk.vertsA with
           | some vs => some vs
           | none => blk.selVerts) with
    | some vs => vs.foldl addVertex st
    | none =>
      match blk.edges with
      | none => st
      | some es => es.foldl (fun st e => addPointObj (addPointObj st e.1) e.2) st

/-- Shallow embedding of `_collect_vertices_for_labels`. -/
def collect_vertices_for_labels (m : GModel) (labels : List String) : List GVtx :=
  (labels.foldl (collectForLabel m) ⟨[], []⟩).vertices

/-- Rounded key of a collected vertex, when its point is readable. -/
def keyOf (v : GVtx) : Option (ℚ × ℚ) := v.pt.map vtxKey

/-- Invariant of the collection accumulator: the seen-key list is exactly the
keys of the collected readable vertices, without duplicates. -/
def CollectInv (st : CollectSt) : Prop :=
  st.vertices.filterMap keyOf = st.seen ∧ st.seen.Nodup

/-! Sweep orchestrator: `run_batch_force_plan` (workflow.py lines 275-539).
The COM host is a family of oracles indexed by call count; the run keeps an
instrumentation trace of host interactions (plus case/position boundary
markers) so that temporal properties can be stated.  Best-effort calls whose
failures the source swallows without observable effect (`set_label_field`,
`contour.Clear`, `contour.AddBlock1`, log emission, sleeping) carry no oracle.
The nested result dict `table[key][idx][col]` is modelled as a total function
into `Option ℚ`; `table.setdefault` inserting an empty sub-dict is invisible
in that encoding. -/

/-- Axis-aligned rectangle `(left, bottom, right, top)`. -/
structure Rect where
  l : ℚ
  b : ℚ
  r : ℚ
  t : ℚ
deriving DecidableEq, Repr

/-- Translation of a rectangle, as in `_move_by_xy` line 380. -/
def translateRect (rc : Rect) (dx dy : ℚ) : Rect :=
  { l := rc.l + dx, b := rc.b + dy, r := rc.r + dx, t := rc.t + dy }

/-- Embedding of `_union_bounds` (lines 195-200): componentwise min/max over a
nonempty list (the source raises on an empty one; the `[]` case is
unreachable because `move_labels` was checked nonempty). -/
def unionBounds : List Rect → Rect
  | [] => { l := 0, b := 0, r := 0, t := 0 }
  | b :: rest =>
    rest.foldl
      (fun acc c => { l := min acc.l c.l, b := min acc.b c.b, r := max acc.r c.r, t := max acc.t c.t })
      b

/-- Instrumentation events recorded by the embedded run.  `moveEvt` records the
issued delta, the outcome and the post-move cumulative displacement and
tracked rectangle; `caseStart`/`posStart`/`restoreStart` mark loop boundaries
of the source (case iteration, position iteration, the finally-block's
restoration). -/
inductive Event
  | sweepStart (base : Rect)
  | caseStart (idx : ℕ)
  | poll (b : Bool)
  | applyField (label field : String) (v : ℚ)
  | posStart (p : ℚ × ℚ)
  | moveEvt (dx dy : ℚ) (ok : Bool) (cx cy : ℚ) (rc : Rect)
  | meshEvt (ok : Bool)
  | solveEvt (ok : Bool)
  | resEvt (ok : Bool)
  | fwEvt (ok : Bool)
  | integralEvt (ok : Bool)
  | recordEvt (p : ℚ × ℚ) (idx : ℕ) (col : String) (v : ℚ)
  | restoreStart
  | warnRestore
  | warnMeshRestore
deriving DecidableEq, Repr

/-- Host oracles for the sweep, indexed by per-kind call count: the value of
`cancel.is_set()` at the n-th poll, the success of the n-th geometry move
(`_move_by_xy`'s interior: `move_blocks_in_rect`, per-vertex fallback — seen
by the orchestrator as one attempt that either moved something or not), the
n-th `_ensure_full_mesh`, `solve_problem`, `problem.Result` read and
`GetFieldWindow`/`Contour` access, and the n-th `GetIntegral` (`none` models
an exception, `some comps` the component decomposition of
`_integral_components`). -/
structure Host where
  cancel : ℕ → Bool
  move : ℕ → Bool
  mesh : ℕ → Bool
  solve : ℕ → Bool
  result : ℕ → Bool
  fieldWin : ℕ → Bool
  integral : ℕ → Option (List (String × ℚ))

/-- Mutable state of the embedded run: per-kind call counters, the tracked
rectangle, the cumulative displacement `cur_x`/`cur_y`, the result table as a
function `(position, case-index, column) → Option value`, the per-integral
component lists `seen_components`, and the instrumentation trace. -/
structure St where
  nCancel : ℕ
  nMove : ℕ
  nMesh : ℕ
  nSolve : ℕ
  nRes : ℕ
  nFw : ℕ
  nInt : ℕ
  rect : Rect
  curX : ℚ
  curY : ℚ
  cells : (ℚ × ℚ) → ℕ → String → Option ℚ
  seen : List (String × List String)
  trace : List Event

/-- Inputs of `run_batch_force_plan` (paths, logging and sleep omitted). -/
structure Inputs where
  moveLabels : List String
  cases : List (List (String × ℚ))
  fieldName : String
  positions : List (ℚ × ℚ)
  integrals : List (String × ℤ)
  mesh : Bool
  remesh : Bool
  meshOnce : Bool

/-- Lines 353-356: `mesh_once_effective` is `mesh_once`, reset to `False`
when `mesh` is set. -/
def meshOnceEff (inp : Inputs) : Bool := inp.meshOnce && !inp.mesh

/-- Shallow embedding of the nested `_move_by_xy` (lines 358-383): deltas
within `1e-9` of zero are a successful no-op issuing no host call; otherwise
one host move attempt; success translates the rectangle and the cumulative
position by exactly the issued delta, failure leaves both unchanged. -/
def move_by_xy (h : Host) (st : St) (dx dy : ℚ) : Bool × St :=
  if |dx| ≤ eps9 ∧ |dy| ≤ eps9 then (true, st)
  else
    let ok := h.move st.nMove
    if ok then
      let cx := st.curX + dx
      let cy := st.curY + dy
      let rc := translateRect st.rect dx dy
      (true, { st with nMove := st.nMove + 1, rect := rc, curX := cx, curY := cy,
                       trace := st.trace ++ [Event.moveEvt dx dy true cx cy rc] })
    else
      (false, { st with nMove := st.nMove + 1,
                        trace := st.trace ++ [Event.moveEvt dx dy false st.curX st.curY st.rect] })

/-- One `_ensure_full_mesh` call. -/
def doMesh (h : Host) (st : St) : Bool × St :=
  let ok := h.mesh st.nMesh
  (ok, { st with nMesh := st.nMesh + 1, trace := st.trace ++ [Event.meshEvt ok] })

/-- One `solve_problem` call. -/
def doSolve (h : Host) (st : St) : Bool × St :=
  let ok := h.solve st.nSolve
  (ok, { st with nSolve := st.nSolve + 1, trace := st.trace ++ [Event.solveEvt ok] })

/-- One `problem.Result` read (`false` models `None`/exception). -/
def doRes (h : Host) (st : St) : Bool × St :=
  let ok := h.result st.nRes
  (ok, { st with nRes := st.nRes + 1, trace := st.trace ++ [Event.resEvt ok] })

/-- One `GetFieldWindow(1)`/`Contour` access. -/
def doFw (h : Host) (st : St) : Bool × St :=
  let ok := h.fieldWin st.nFw
  (ok, { st with nFw := st.nFw + 1, trace := st.trace ++ [Event.fwEvt ok] })

/-- One `is_cancelled()` poll. -/
def doPoll (h : Host) (st : St) : Bool × St :=
  let c := h.cancel st.nCancel
  (c, { st with nCancel := st.nCancel + 1, trace := st.trace ++ [Event.poll c] })

/-- Line 386: `seen_components = {name: [] for name, _ in integrals}` —
insertion-ordered distinct keys. -/
def seenInit (integrals : List (String × ℤ)) : List (String × List String) :=
  (integrals.map Prod.fst).foldl
    (fun acc nm => if acc.any (fun e => e.1 = nm) then acc else acc ++ [(nm, [])]) []

/-- Lines 469-470: append `comp` to `seen_components[nm]` unless present. -/
def seenAdd (seen : List (String × List String)) (nm comp : String) :
    List (String × List String) :=
  seen.map fun e =>
    if e.1 = nm then (e.1, if comp ∈ e.2 then e.2 else e.2 ++ [comp]) else e

/-- Pointwise update of the result table (line 472). -/
def cellsSet (c : (ℚ × ℚ) → ℕ → String → Option ℚ) (k : ℚ × ℚ) (i : ℕ) (col : String)
    (v : ℚ) : (ℚ × ℚ) → ℕ → String → Option ℚ :=
  fun k' i' col' => if k' = k ∧ i' = i ∧ col' = col then some v else c k' i' col'

/-- Column naming (line 471): `name` for the empty component, else
`name.comp`. -/
def colName (nm comp : String) : String := if comp = "" then nm else nm ++ "." ++ comp

/-- Lines 468-473: record each component of one integral value. -/
def recordComps (key : ℚ × ℚ) (idx : ℕ) (nm : String) (comps : List (String × ℚ))
    (st : St) : St :=
  comps.foldl
    (fun st cv =>
      let st1 := { st with seen := seenAdd st.seen nm cv.1 }
      let col := colName nm cv.1
      { st1 with cells := cellsSet st1.cells key idx col cv.2,
                 trace := st1.trace ++ [Event.recordEvt key idx col cv.2] })
    st

/-- Lines 458-473: the integrals loop; `some 13` is the early return when
`GetIntegral` raises. -/
def integralsLoop (h : Host) (key : ℚ × ℚ) (idx : ℕ) :
    List (String × ℤ) → St → Option ℕ × St
  | [], st => (none, st)
  | (nm, _) :: rest, st =>
    match h.integral st.nInt with
    | none =>
      (some 13, { st with nInt := st.nInt + 1, trace := st.trace ++ [Event.integralEvt false] })
    | some comps =>
      let st1 := { st with nInt := st.nInt + 1, trace := st.trace ++ [Event.integralEvt true] }
      integralsLoop h key idx rest (recordComps key idx nm comps st1)

/-- Exit kind of the per-case `try` body: all positions processed, the inner
`break` on cancellation, or an early `return code`. -/
inductive CaseExit
  | done
  | cancelledBrk
  | abort (code : ℕ)
deriving DecidableEq, Repr

/-- Lines 412-478: the position loop of one case. -/
def runPositions (h : Host) (inp : Inputs) (idx : ℕ) :
    List (ℚ × ℚ) → St → CaseExit × St
  | [], st => (CaseExit.done, st)
  | p :: rest, st =>
    match doPoll h { st with trace := st.trace ++ [Event.posStart p] } with
    | (true, st) => (CaseExit.cancelledBrk, st)
    | (false, st) =>
      match move_by_xy h st (p.1 - st.curX) (p.2 - st.curY) with
      | (false, st) => (CaseExit.abort 8, st)
      | (true, st) =>
        match (if !meshOnceEff inp && inp.mesh then doMesh h st else (true, st)) with
        | (false, st) => (CaseExit.abort 9, st)
        | (true, st) =>
          match doSolve h st with
          | (false, st) => (CaseExit.abort 10, st)
          | (true, st) =>
            match doRes h st with
            | (false, st) => (CaseExit.abort 11, st)
            | (true, st) =>
              match doFw h st with
              | (false, st) => (CaseExit.abort 12, st)
              | (true, st) =>
                match integralsLoop h p idx inp.integrals st with
                | (some code, st) => (CaseExit.abort code, st)
                | (none, st) => runPositions h inp idx rest st

/-- The tail of one position-loop iteration after a successful move: the
optional per-position mesh build, solve, result read, field-window read and
integrals extraction, then the continuation `k` (the loop on the remaining
positions). -/
def afterMove (h : Host) (inp : Inputs) (k : St → CaseExit × St) (key : ℚ × ℚ)
    (idx : ℕ) (st : St) : CaseExit × St :=
  match (if !meshOnceEff inp && inp.mesh then doMesh h st else (true, st)) with
  | (false, st) => (CaseExit.abort 9, st)
  | (true, st) =>
    match doSolve h st with
    | (false, st) => (CaseExit.abort 10, st)
    | (true, st) =>
      match doRes h st with
      | (false, st) => (CaseExit.abort 11, st)
      | (true, st) =>
        match doFw h st with
        | (false, st) => (CaseExit.abort 12, st)
        | (true, st) =>
          match integralsLoop h key idx inp.integrals st with
          | (some code, st) => (CaseExit.abort code, st)
          | (none, st) => k st

/-- Lines 401-410 plus the position loop: the per-case `try` body — move to
the start position, the (dead, since `meshOnceEff` implies `¬mesh`)
mesh-once build, then the position loop. -/
def caseBody (h : Host) (inp : Inputs) (idx : ℕ) (p0 : ℚ × ℚ) (st : St) : CaseExit × St :=
  match move_by_xy h st (p0.1 - st.curX) (p0.2 - st.curY) with
  | (false, st) => (CaseExit.abort 8, st)
  | (true, st) =>
    match (if meshOnceEff inp && inp.mesh then doMesh h st else (true, st)) with
    | (false, st) => (CaseExit.abort 9, st)
    | (true, st) => runPositions h inp idx inp.positions st

/-- Lines 479-487: the `finally` block — when the cumulative displacement
exceeds the tolerance, issue the restoring move by exactly its negation; on
failure emit a warning (the pending return value is untouched); on success
optionally rebuild the mesh, warning on failure. -/
def caseFinally (h : Host) (inp : Inputs) (st : St) : St :=
  if eps9 < |st.curX| ∨ eps9 < |st.curY| then
    match move_by_xy h { st with trace := st.trace ++ [Event.restoreStart] }
        (-st.curX) (-st.curY) with
    | (false, st1) => { st1 with trace := st1.trace ++ [Event.warnRestore] }
    | (true, st1) =>
      if inp.mesh then
        match doMesh h st1 with
        | (true, st2) => st2
        | (false, st2) => { st2 with trace := st2.trace ++ [Event.warnMeshRestore] }
      else st1
  else st

/-- Lines 395-396: apply the case's field values (`set_label_field` is
best-effort in the source; only the trace records it). -/
def applyFields (inp : Inputs) (vals : List (String × ℚ)) (st : St) : St :=
  vals.foldl
    (fun st nv => { st with trace := st.trace ++ [Event.applyField nv.1 inp.fieldName nv.2] })
    st

/-- Lines 395-400: case preparation — field values, then reset the tracked
rectangle to the baseline and the cumulative displacement to `(0, 0)`. -/
def prepCase (inp : Inputs) (base : Rect) (vals : List (String × ℚ)) (st : St) : St :=
  let st1 := applyFields inp vals st
  { st1 with rect := base, curX := 0, curY := 0 }

/-- Lines 391-493: the case loop.  `some code` is an early `return code` (99
for cancellation), `none` means every case completed. -/
def runCases (h : Host) (inp : Inputs) (base : Rect) (p0 : ℚ × ℚ) :
    ℕ → List (List (String × ℚ)) → St → Option ℕ × St
  | _, [], st => (none, st)
  | idx, vals :: rest, st =>
    match doPoll h { st with trace := st.trace ++ [Event.caseStart idx] } with
    | (true, st) => (some 99, st)
    | (false, st) =>
      match caseBody h inp idx p0 (prepCase inp base vals st) with
      | (ex, st1) =>
        let st2 := caseFinally h inp st1
        match ex with
        | CaseExit.abort code => (some code, st2)
        | CaseExit.cancelledBrk => (some 99, st2)
        | CaseExit.done => runCases h inp base p0 (idx + 1) rest st2

/-- Setup host: whether `open_problem` and `ensure_model_loaded` succeed, and
per label the result of `_find_block_by_label` / `_block_bounds`
(outer `none` = block not found, `some none` = bounds unavailable). -/
structure SetupHost where
  problemOk : Bool
  modelOk : Bool
  blockRect : String → Option (Option Rect)

/-- Lines 339-349: gather the moving labels' bounds, failing with the
source's return codes 6 / 7. -/
def collectBounds (sh : SetupHost) : List String → Except ℕ (List Rect)
  | [] => Except.ok []
  | nm :: rest =>
    match sh.blockRect nm with
    | none => Except.error 6
    | some none => Except.error 7
    | some (some rc) => (collectBounds sh rest).map (fun bs => rc :: bs)

/-- Initial run state. -/
def st0 : St :=
  { nCancel := 0, nMove := 0, nMesh := 0, nSolve := 0, nRes := 0, nFw := 0, nInt := 0,
    rect := { l := 0, b := 0, r := 0, t := 0 }, curX := 0, curY := 0,
    cells := fun _ _ _ => none, seen := [], trace := [] }

/-- Shallow embedding of `run_batch_force_plan` (lines 275-539): input
validation with the source's return codes, setup, the case×position loop, and
the final return code (0 on completion, 99 on cancellation).  CSV/console
rendering of the table is the separate pure function `headerRow`/`dataRows`
below, fed from the returned state. -/
def run_batch_force_plan (sh : SetupHost) (h : Host) (inp : Inputs) : ℕ × St :=
  if inp.moveLabels.isEmpty then (3, st0)
  else if inp.cases.isEmpty then (4, st0)
  else if inp.positions.isEmpty then (5, st0)
  else if inp.integrals.isEmpty then (6, st0)
  else if !sh.problemOk then (1, st0)
  else if !sh.modelOk then (2, st0)
  else
    match collectBounds sh inp.moveLabels with
    | Except.error c => (c, st0)
    | Except.ok bs =>
      let base := unionBounds bs
      let st := { st0 with rect := base, seen := seenInit inp.integrals,
                           trace := [Event.sweepStart base] }
      match runCases h inp base (inp.positions.headD (0, 0)) 1 inp.cases st with
      | (some code, st) => (code, st)
      | (none, st) => (0, st)

/-! Table rendering (lines 495-538; the CSV branch and the console branch
build the identical header and rows). -/

/-- Lines 501-507: the output columns — for each requested integral, its
recorded components (`[""]` when none were recorded), named by `colName`. -/
def outputCols (integrals : List (String × ℤ)) (seen : List (String × List String)) :
    List String :=
  integrals.flatMap fun it =>
    let comps := (Option.map Prod.snd (seen.find? fun e => e.1 = it.1)).getD []
    let comps := if comps.isEmpty then [""] else comps
    comps.map (colName it.1)

/-- One header cell: a position-axis column or a (case-label, output-column)
pair.  The source renders the pair as the string `"label:col"` with the case
label itself a comma-joined `k=v` list; the structured content is kept here
instead of Python float formatting. -/
inductive HCell
  | axis (name : String)
  | pair (caseVals : List (String × ℚ)) (col : String)
deriving DecidableEq, Repr

/-- Line 508: the header row — `dx`, `dy`, then one column per
(case, output-column) pair, case-major. -/
def headerRow (inp : Inputs) (seen : List (String × List String)) : List HCell :=
  [HCell.axis "dx", HCell.axis "dy"] ++
    inp.cases.flatMap fun vals => (outputCols inp.integrals seen).map (HCell.pair vals)

/-- Lines 510-516: the data cells of one row — for case indices 1..n and each
output column, the recorded cell (`none` renders as the empty string). -/
def dataRow (inp : Inputs) (seen : List (String × List String))
    (cells : (ℚ × ℚ) → ℕ → String → Option ℚ) (p : ℚ × ℚ) : List (Option ℚ) :=
  (List.range' 1 inp.cases.length).flatMap fun idx =>
    (outputCols inp.integrals seen).map fun col => cells p idx col

/-- Lines 510-517: one data row per sampled position, in sampled order, headed
by the position's `dx`, `dy`. -/
def dataRows (inp : Inputs) (seen : List (String × List String))
    (cells : (ℚ × ℚ) → ℕ → String → Option ℚ) : List ((ℚ × ℚ) × List (Option ℚ)) :=
  inp.positions.map fun p => (p, dataRow inp seen cells p)

/-! Trace checkers used to state the tracked-rectangle invariant (C5) and the
cancellation discipline (C6). -/

/-- Checker state for the tracked-rectangle invariant: the cumulative sum of
successfully applied deltas since the current case's baseline, and the pending
position target set by the latest position-boundary marker. -/
structure ChkSt where
  cum : ℚ × ℚ
  pending : Option (ℚ × ℚ)
deriving DecidableEq, Repr

/-- One step of the tracked-rectangle checker.  At a `caseStart` the expected
cumulative displacement resets to `(0,0)`; a `posStart` arms the position
target; a `moveEvt` must be issued by exactly the delta from the expected
cumulative position to the armed target (when one is armed), must on success
advance the cumulative sum by its delta and record the baseline rectangle
translated by the new sum, and must on failure leave both unchanged. -/
def chkStep (base : Rect) (s : ChkSt) : Event → Option ChkSt
  | Event.caseStart _ => some { cum := (0, 0), pending := none }
  | Event.posStart p => some { s with pending := some p }
  | Event.poll b => some (if b then { s with pending := none } else s)
  | Event.restoreStart => some { s with pending := none }
  | Event.moveEvt dx dy ok cx cy rc =>
    let targetOk : Bool :=
      match s.pending with
      | some p => decide (s.cum.1 + dx = p.1 ∧ s.cum.2 + dy = p.2)
      | none => true
    if ok then
      if targetOk && decide (cx = s.cum.1 + dx ∧ cy = s.cum.2 + dy ∧ rc = translateRect base cx cy)
      then some { cum := (cx, cy), pending := none } else none
    else
      if targetOk && decide (cx = s.cum.1 ∧ cy = s.cum.2 ∧ rc = translateRect base cx cy)
      then some { cum := s.cum, pending := none } else none
  | _ => some s

/-- Run the tracked-rectangle checker over a trace (`none` = violation). -/
def chkRun (base : Rect) : List Event → ChkSt → Option ChkSt
  | [], s => some s
  | e :: rest, s =>
    match chkStep base s e with
    | none => none
    | some s1 => chkRun base rest s1

/-- Events that may legitimately appear after a cancellation has been
observed: only the finally-block's restoration (its marker, its move, the
post-restore mesh rebuild) and warnings. -/
def postCancelOk : Event → Bool
  | Event.restoreStart => true
  | Event.moveEvt _ _ _ _ _ _ => true
  | Event.meshEvt _ => true
  | Event.warnRestore => true
  | Event.warnMeshRestore => true
  | _ => false

/-- Scan with the preceding event: every cancellation poll must sit directly
after a case-boundary or position-boundary marker. -/
def pollsAtBoundariesFrom : Option Event → List Event → Bool
  | _, [] => true
  | prev, e :: rest =>
    (match e, prev with
     | Event.poll _, some (Event.caseStart _) => true
     | Event.poll _, some (Event.posStart _) => true
     | Event.poll _, _ => false
     | _, _ => true) && pollsAtBoundariesFrom (some e) rest

/-- Check that every poll in a trace sits at a case or position boundary. -/
def pollsAtBoundaries (t : List Event) : Bool := pollsAtBoundariesFrom none t

/-- The last event of a segment, falling back to the preceding one. -/
def lastPrev (prev : Option Event) (t : List Event) : Option Event :=
  match t.getLast? with
  | some e => some e
  | none => prev

/-- Invariant tying a run state to the rectangle checker: the checker's
cumulative sum is the state's cumulative displacement and the tracked
rectangle is the baseline translated by it. -/
def ChkInv (base : Rect) (st : St) (s : ChkSt) : Prop :=
  s.cum = (st.curX, st.curY) ∧ st.rect = translateRect base st.curX st.curY

/-- A trace segment with no observed cancellation. -/
def NoPT (t : List Event) : Prop := Event.poll true ∉ t

/-- A trace segment whose events are all admissible after an observed
cancellation. -/
def AllPost (t : List Event) : Prop := ∀ e ∈ t, postCancelOk e = true

/-- Everything after any observed cancellation inside the segment is
admissible. -/
def PostCancelSegOk (t : List Event) : Prop :=
  ∀ t1 t2, t = t1 ++ Event.poll true :: t2 → AllPost t2

/-- New cell values come with a matching record event in the segment. -/
def CellsMono (st st' : St) (t : List Event) : Prop :=
  ∀ k i c v, st'.cells k i c = some v →
    st.cells k i c = some v ∨ Event.recordEvt k i c v ∈ t

/-- Every poll of the segment sits at a boundary, whatever precedes it. -/
def BoundaryPolls (t : List Event) : Prop :=
  ∀ prev, pollsAtBoundariesFrom prev t = true

/-- Events the rectangle checker passes over unchanged. -/
def chkNeutral : Event → Bool
  | Event.caseStart _ => false
  | Event.posStart _ => false
  | Event.poll _ => false
  | Event.restoreStart => false
  | Event.moveEvt _ _ _ _ _ _ => false
  | _ => true

/-- Cancellation-poll events. -/
def isPoll : Event → Bool
  | Event.poll _ => true
  | _ => false

/-- The rectangle checker accepts the segment from any agreeing start. -/
def ChkSeg (st st' : St) (Δ : List Event) : Prop :=
  ∀ base s, ChkInv base st s → ∃ s', chkRun base Δ s = some s' ∧ ChkInv base st' s'

/-- The rectangle checker accepts the segment from any agreeing start with no
armed position target. -/
def ChkSegNone (st st' : St) (Δ : List Event) : Prop :=
  ∀ base s, ChkInv base st s → s.pending = none →
    ∃ s', chkRun base Δ s = some s' ∧ ChkInv base st' s'

/-- Common facts about a position-loop segment: the trace grows by `Δ`, a
true poll appears exactly on the cancelled exit and only as the final event
of its position boundary, abort codes are never the cancellation code, new
cells carry record events, and polls sit at boundaries. -/
def ExCommon (st st' : St) (ex : CaseExit) (Δ : List Event) : Prop :=
  st'.trace = st.trace ++ Δ ∧
  ((Event.poll true ∈ Δ) ↔ ex = CaseExit.cancelledBrk) ∧
  (∀ code, ex = CaseExit.abort code → code ≠ 99) ∧
  (ex = CaseExit.cancelledBrk →
    ∃ Δ₀ p, Δ = Δ₀ ++ [Event.posStart p, Event.poll true] ∧ NoPT Δ₀) ∧
  CellsMono st st' Δ ∧ BoundaryPolls Δ

/-- Common facts about a case-loop segment: the trace grows by `Δ`, a true
poll appears exactly when the run returns the cancellation code 99, whatever
follows an observed cancellation is restoration work, new cells carry record
events, polls sit at boundaries, the checker accepts the segment, and the
within-tolerance-or-warned geometry condition is preserved. -/
def CaseFacts (base : Rect) (st st' : St) (res : Option ℕ) (Δ : List Event) : Prop :=
  st'.trace = st.trace ++ Δ ∧
  (∀ s : ChkSt, ∃ s', chkRun base Δ s = some s') ∧
  ((Event.poll true ∈ Δ) ↔ res = some 99) ∧
  (res = some 99 →
    ∃ Δ₀ Δ₂, Δ = Δ₀ ++ Event.poll true :: Δ₂ ∧ NoPT Δ₀ ∧ AllPost Δ₂) ∧
  CellsMono st st' Δ ∧ BoundaryPolls Δ ∧
  (((|st.curX| ≤ eps9 ∧ |st.curY| ≤ eps9) ∨ Event.warnRestore ∈ st.trace) →
    ((|st'.curX| ≤ eps9 ∧ |st'.curY| ≤ eps9) ∨ Event.warnRestore ∈ st'.trace))

/-- Host used by concrete witnesses: never cancelled, every operation
succeeds, every integral yields one scalar component `5`. -/
def hostW : Host :=
  { cancel := fun _ => false, move := fun _ => true, mesh := fun _ => true,
    solve := fun _ => true, result := fun _ => true, fieldWin := fun _ => true,
    integral := fun _ => some [("", 5)] }

/-- Inputs used by concrete witnesses: one moving label, two cases, three
positions, one integral. -/
def inpW : Inputs :=
  { moveLabels := ["A"], cases := [[("A", 100)], [("A", 200)]],
    fieldName := "Loading", positions := [(0, 0), (1, 0), (2, 0)],
    integrals := [("F", 15)], mesh := false, remesh := false, meshOnce := false }

/-- Recorded components used by the table-rendering witness. -/
def seenW : List (String × List String) := [("F", [""])]

/-- Host whose geometry moves always fail (other operations succeed). -/
def hostMoveFail : Host :=
  { hostW with move := fun _ => false }

/-- Host that reports cancellation from the second poll on, with the second
and later geometry moves failing. -/
def hostCancelAt2 : Host :=
  { hostW with cancel := fun n => decide (1 ≤ n), move := fun n => decide (n = 0) }

/-- State with a pending cumulative displacement of `(1, 0)`. -/
def stW : St := { st0 with curX := 1 }

/-- Inputs for the cancellation counterexample: one case, positions `(1,0)`
then `(2,0)`, no meshing. -/
def inpCancel : Inputs :=
  { moveLabels := ["A"], cases := [[("A", 100)]], fieldName := "Loading",
    positions := [(1, 0), (2, 0)], integrals := [("F", 15)],
    mesh := false, remesh := false, meshOnce := false }

/-- Setup host for the cancellation counterexample: problem and model load,
the single block has bounds `(0, 0, 1, 1)`. -/
def setupW : SetupHost :=
  { problemOk := true, modelOk := true,
    blockRect := fun _ => some (some { l := 0, b := 0, r := 1, t := 1 }) }

/-- Baseline rectangle of the cancellation counterexample. -/
def rectW : Rect := { l := 0, b := 0, r := 1, t := 1 }

/-- Counterexample run, state after setup. -/
def stC0 : St :=
  { st0 with rect := rectW, seen := [("F", [])], trace := [Event.sweepStart rectW] }

/-- Counterexample run, state after the case-start poll (not cancelled). -/
def stC1 : St :=
  { stC0 with nCancel := 1,
              trace := stC0.trace ++ [Event.caseStart 1, Event.poll false] }

/-- Counterexample run, state after case preparation. -/
def stC2 : St :=
  { stC0 with nCancel := 1,
              trace := stC0.trace ++ [Event.caseStart 1, Event.poll false,
                Event.applyField "A" "Loading" 100] }

/-- Counterexample run, state after the successful initial move to `(1, 0)`. -/
def stC3 : St :=
  { stC2 with nMove := 1,
              rect := translateRect rectW ((1 : ℚ) - 0) ((0 : ℚ) - 0),
              curX := 0 + ((1 : ℚ) - 0), curY := 0 + ((0 : ℚ) - 0),
              trace := stC2.trace ++
                [Event.moveEvt ((1 : ℚ) - 0) ((0 : ℚ) - 0) true (0 + ((1 : ℚ) - 0))
                  (0 + ((0 : ℚ) - 0)) (translateRect rectW ((1 : ℚ) - 0) ((0 : ℚ) - 0))] }

/-- Counterexample run, state at the cancelled position poll. -/
def stC4 : St :=
  { stC3 with nCancel := 2,
              trace := stC3.trace ++ [Event.posStart ((1 : ℚ), (0 : ℚ)), Event.poll true] }

/-- Counterexample run, state after the failed restoring move. -/
def stC5a : St :=
  { stC4 with nMove := 2,
              trace := stC4.trace ++ [Event.restoreStart,
                Event.moveEvt (-stC4.curX) (-stC4.curY) false stC4.curX stC4.curY
                  stC4.rect] }

/-- Counterexample run, final state with the restore warning. -/
def stC5 : St := { stC5a with trace := stC5a.trace ++ [Event.warnRestore] }

/-! Theorems.  First the lemmas certifying the square-root-free embedding of
`_positions_line`, then the claims. -/

/-- Floor of a real square root computed through `Nat.sqrt` of the floor. -/
theorem floor_real_sqrt (x : ℝ) (hx : 0 ≤ x) : ⌊Real.sqrt x⌋₊ = Nat.sqrt ⌊x⌋₊ := by
  rw [Nat.eq_sqrt]
  have h1 : ((⌊Real.sqrt x⌋₊ : ℕ) : ℝ) ≤ Real.sqrt x := Nat.floor_le (Real.sqrt_nonneg x)
  have h2 : Real.sqrt x < (⌊Real.sqrt x⌋₊ : ℝ) + 1 := Nat.lt_floor_add_one _
  constructor
  · apply Nat.le_floor
    push_cast
    calc ((⌊Real.sqrt x⌋₊ : ℝ) * ⌊Real.sqrt x⌋₊) ≤ Real.sqrt x * Real.sqrt x :=
          mul_le_mul h1 h1 (by positivity) (Real.sqrt_nonneg x)
      _ = x := Real.mul_self_sqrt hx
  · rw [Nat.floor_lt hx]
    push_cast
    calc x = Real.sqrt x * Real.sqrt x := (Real.mul_self_sqrt hx).symm
      _ < ((⌊Real.sqrt x⌋₊ : ℝ) + 1) * ((⌊Real.sqrt x⌋₊ : ℝ) + 1) :=
          mul_self_lt_mul_self (Real.sqrt_nonneg x) h2

/-- Certificate that `floorLenDiv` is exactly `int(length / step)` of the
source, `length` being the real square root of the squared length. -/
theorem floorLenDiv_eq (q s : ℚ) (hq : 0 ≤ q) (hs : 0 < s) :
    floorLenDiv q s = ⌊Real.sqrt (q : ℝ) / (s : ℝ)⌋₊ := by
  have hs' : (0 : ℝ) < (s : ℝ) := by exact_mod_cast hs
  have hq' : (0 : ℝ) ≤ (q : ℝ) := by exact_mod_cast hq
  have hdiv : Real.sqrt (q : ℝ) / (s : ℝ) = Real.sqrt ((q : ℝ) / (s : ℝ) ^ 2) := by
    rw [Real.sqrt_div hq', Real.sqrt_sq hs'.le]
  unfold floorLenDiv
  rw [hdiv, floor_real_sqrt _ (by positivity)]
  congr 1
  rw [show ((q : ℝ) / (s : ℝ) ^ 2) = ((q / (s * s) : ℚ) : ℝ) by push_cast; ring]
  rw [← Int.floor_toNat, ← Int.floor_toNat, Rat.floor_cast]

/-- Certificate that the embedded branch test `lengthSq ≤ (1e-9)²` is exactly
the source's `length <= 1e-9`. -/
theorem sqrt_le_iff_mul_self (q c : ℚ) (hc : 0 ≤ c) :
    Real.sqrt (q : ℝ) ≤ (c : ℝ) ↔ q ≤ c * c := by
  rw [Real.sqrt_le_left (by exact_mod_cast hc)]
  constructor
  · intro h; exact_mod_cast (by rw [sq] at h; exact h : (q : ℝ) ≤ (c : ℝ) * c)
  · intro h; rw [sq]; exact_mod_cast h

/-- C1 counterexample: for start `(0,0)`, end `(1/2, 0)` and step `1`, the
code returns two samples while the claim's `floor(length/step) + 1` predicts
a single one. -/
theorem C1_counterexample :
    positions_line 0 0 (1/2) 0 1 = some [(0, 0), (1/2, 0)] ∧
    floorLenDiv (((1:ℚ)/2 - 0) * ((1:ℚ)/2 - 0) + (0 - 0) * (0 - 0)) 1 + 1 = 1 := by
  have hfl : floorLenDiv (((1:ℚ)/2 - 0) * ((1:ℚ)/2 - 0) + (0 - 0) * (0 - 0)) 1 = 0 := by
    unfold floorLenDiv
    rw [show ⌊((((1:ℚ)/2 - 0) * ((1:ℚ)/2 - 0) + (0 - 0) * (0 - 0)) / (1 * 1) : ℚ)⌋₊ = 0
      by norm_num]
    exact Nat.sqrt_zero
  constructor
  · unfold positions_line
    rw [if_neg (by norm_num), if_neg (by norm_num [eps9])]
    rw [show max 1 (floorLenDiv (((1:ℚ)/2 - 0) * ((1:ℚ)/2 - 0) + (0 - 0) * (0 - 0)) 1) = 1
      from by rw [hfl]; simp]
    norm_num [List.range_succ, roundDec, roundHalfEven]
  · rw [hfl]

/-- C1 amended: for step > 0 the sampler returns one sample (the rounded start
point) when the squared distance is within `(1e-9)²`, and otherwise
`max 1 (floor(length/step)) + 1` evenly spaced samples whose i-th entry
interpolates start to end at fraction `i/(count-1)`, rounded to 6 decimals —
in particular the rounded start and end points are the first and last
samples. -/
theorem C1_amended (x0 y0 x1 y1 step : ℚ) (hstep : 0 < step) :
    ((x1 - x0) * (x1 - x0) + (y1 - y0) * (y1 - y0) ≤ eps9 * eps9 →
      positions_line x0 y0 x1 y1 step = some [(roundDec 6 x0, roundDec 6 y0)]) ∧
    (¬((x1 - x0) * (x1 - x0) + (y1 - y0) * (y1 - y0) ≤ eps9 * eps9) →
      ∃ l, positions_line x0 y0 x1 y1 step = some l ∧
        l.length =
          max 1 (floorLenDiv ((x1 - x0) * (x1 - x0) + (y1 - y0) * (y1 - y0)) step) + 1 ∧
        l[0]? = some (roundDec 6 x0, roundDec 6 y0) ∧
        l[l.length - 1]? = some (roundDec 6 x1, roundDec 6 y1) ∧
        ∀ i, i < l.length →
          l[i]? = some (roundDec 6 (x0 + (x1 - x0) * i / (l.length - 1)),
                        roundDec 6 (y0 + (y1 - y0) * i / (l.length - 1)))) := by
  have hns : ¬ step ≤ 0 := not_le.mpr hstep
  constructor
  · intro hle
    unfold positions_line
    rw [if_neg hns, if_pos hle]
  · intro hgt
    unfold positions_line
    rw [if_neg hns, if_neg hgt]
    set S := max 1 (floorLenDiv ((x1 - x0) * (x1 - x0) + (y1 - y0) * (y1 - y0)) step) with hS
    have hS1 : 1 ≤ S := le_max_left _ _
    have hSne : ((S : ℚ)) ≠ 0 := Nat.cast_ne_zero.mpr (by omega)
    refine ⟨_, rfl, by simp, ?_, ?_, ?_⟩
    · rw [List.getElem?_map, List.getElem?_range (by simp)]
      simp
    · simp only [List.length_map, List.length_range, Nat.add_sub_cancel]
      rw [List.getElem?_map, List.getElem?_range (by omega)]
      have hx : x0 + (x1 - x0) * (S : ℚ) / (S : ℚ) = x1 := by
        rw [mul_div_assoc, div_self hSne]; ring
      have hy : y0 + (y1 - y0) * (S : ℚ) / (S : ℚ) = y1 := by
        rw [mul_div_assoc, div_self hSne]; ring
      simp only [Option.map_some']
      rw [hx, hy]
    · intro i hi
      simp only [List.length_map, List.length_range] at hi
      simp only [List.length_map, List.length_range]
      rw [List.getElem?_map, List.getElem?_range (by omega)]
      have hc : ((S + 1 : ℕ) : ℚ) - 1 = (S : ℚ) := by push_cast; ring
      simp only [Option.map_some']
      rw [hc]

/-- C1 amended witness at `sampleLine(0,0, 3,0, 1)`: four samples from the
rounded start to the rounded end. -/
theorem C1_amended_witness :
    (0 : ℚ) < 1 ∧
    ¬(((3:ℚ) - 0) * ((3:ℚ) - 0) + (0 - 0) * (0 - 0) ≤ eps9 * eps9) ∧
    ∃ l, positions_line 0 0 3 0 1 = some l ∧
      l.length = max 1 (floorLenDiv (((3:ℚ) - 0) * ((3:ℚ) - 0) + (0 - 0) * (0 - 0)) 1) + 1 ∧
      l[0]? = some (roundDec 6 0, roundDec 6 0) ∧
      l[l.length - 1]? = some (roundDec 6 3, roundDec 6 0) ∧
      ∀ i, i < l.length →
        l[i]? = some (roundDec 6 (0 + ((3:ℚ) - 0) * i / (l.length - 1)),
                      roundDec 6 (0 + ((0:ℚ) - 0) * i / (l.length - 1))) :=
  ⟨by norm_num, by norm_num [eps9],
    (C1_amended 0 0 3 0 1 (by norm_num)).2 (by norm_num [eps9])⟩

/-- C2 counterexample: with a host on which every call form succeeds, the
code's entity move resolves to the no-argument `Move()` while the claimed
order (single displacement vector first) resolves to `Move(PointXY)`. -/
theorem C2_counterexample :
    move_vertex allOkHost = some MoveForm.moveNoArg ∧
    claimed_move allOkHost = some MoveForm.movePt ∧
    move_vertex allOkHost ≠ claimed_move allOkHost := by decide

/-- C2 amended: the entity-move operation is the first-success resolver over
the ranked list `codeOrder`: the no-argument `Move()` first, then
`Move(dx,dy)`, then (when `PointXY` constructs) `Move(PointXY)` and
`Move(PointXY, PointXY)`, then (when the point and its coordinates are
readable) wholesale point reassignment (when `PointXY` constructs) and
individual X/Y mutation; it returns the identifier of the first succeeding
form and a failure marker (`none`) only when every attempted form fails. -/
theorem C2_amended (h : MoveHost) : move_vertex h = (codeOrder h).find? h.ok := by
  obtain ⟨pxy, ok, pr, xy⟩ := h
  cases h0 : ok MoveForm.moveNoArg <;>
  cases h1 : ok MoveForm.moveDxDy <;>
  cases h2 : ok MoveForm.movePt <;>
  cases h3 : ok MoveForm.movePtPt <;>
  cases h4 : ok MoveForm.assignPt <;>
  cases h5 : ok MoveForm.setXY <;>
  cases pxy <;> cases pr <;> cases xy <;>
    simp [move_vertex, try_move, codeOrder, List.find?, h0, h1, h2, h3, h4, h5]

/-- C3: with a model present and a solve method available, the solve driver
issues at most two solve calls; a first failure outside the transient
class ("has no mesh" plus "air") reports failure without retrying; a first
failure inside the class triggers exactly one retry, whose success or
same-class failure reports success and whose failure outside the class
reports failure. -/
theorem C3_solve_retry (h : SolveHost) (hm : h.modelPresent = true)
    (hs : h.hasSolve = true) :
    ((solve_problem h).2 ≤ 2) ∧
    (h.first = none → solve_problem h = (true, 1)) ∧
    (∀ m, h.first = some m → transientMsg m = false →
      solve_problem h = (false, 1)) ∧
    (∀ m, h.first = some m → transientMsg m = true → (solve_problem h).2 = 2) ∧
    (∀ m, h.first = some m → transientMsg m = true → h.second = none →
      (solve_problem h).1 = true) ∧
    (∀ m m2, h.first = some m → transientMsg m = true → h.second = some m2 →
      transientMsg m2 = true → (solve_problem h).1 = true) ∧
    (∀ m m2, h.first = some m → transientMsg m = true → h.second = some m2 →
      transientMsg m2 = false → (solve_problem h).1 = false) := by
  obtain ⟨hasS, mp, f, s⟩ := h
  subst hm; subst hs
  simp only [solve_problem, trySolveOutcome, if_true]
  refine ⟨?_, ?_, ?_, ?_, ?_, ?_, ?_⟩
  · cases f with
    | none => simp
    | some m =>
      cases hm2 : transientMsg m
      · simp [hm2]
      · simp only [hm2, if_true]
        cases s <;> simp
  · rintro rfl; simp
  · rintro m rfl hm2; simp [hm2]
  · rintro m rfl hm2
    simp only [hm2, if_true]
    cases s <;> simp
  · rintro m rfl hm2 rfl; simp [hm2]
  · rintro m m2 rfl hm2 rfl hm3; simp [hm2, hm3]
  · rintro m m2 rfl hm2 rfl hm3; simp [hm2, hm3]

/-- Host whose first and retried solve calls both fail with the known
transient message class. -/
def transientHost : SolveHost :=
  { hasSolve := true, modelPresent := true,
    first := some "Block 'coil' has no mesh (air region).",
    second := some "Block 'coil' has no mesh (air region)." }

/-- C3 witness: a same-class retry failure counts as success after exactly one
retry. -/
theorem C3_witness :
    transientHost.modelPresent = true ∧ transientHost.hasSolve = true ∧
    (solve_problem transientHost).2 = 2 ∧ (solve_problem transientHost).1 = true :=
  ⟨rfl, rfl,
    (C3_solve_retry transientHost rfl rfl).2.2.2.1 _ rfl (by decide),
    (C3_solve_retry transientHost rfl rfl).2.2.2.2.2.1 _ _ rfl (by decide) rfl (by decide)⟩

/-- Helper: a list of naturals has a one-element dedup exactly when all its
members agree. -/
theorem dedup_length_one_iff {l : List ℕ} (hne : l ≠ []) :
    l.dedup.length = 1 ↔ ∃ n, ∀ x ∈ l, x = n := by
  constructor
  · intro h
    obtain ⟨a, ha⟩ := List.length_eq_one.mp h
    exact ⟨a, fun x hx => by
      have hm : x ∈ l.dedup := List.mem_dedup.mpr hx
      rw [ha] at hm
      simpa using hm⟩
  · rintro ⟨n, hn⟩
    obtain ⟨x, hx⟩ := List.exists_mem_of_ne_nil l hne
    have hxd : n ∈ l.dedup := List.mem_dedup.mpr (hn x hx ▸ hx)
    have hnd := List.nodup_dedup l
    rcases hd : l.dedup with _ | ⟨a, t⟩
    · rw [hd] at hxd; simp at hxd
    · rcases t with _ | ⟨b, t2⟩
      · rfl
      · exfalso
        rw [hd] at hnd
        have ha : a ∈ l := List.mem_dedup.mp (hd ▸ List.mem_cons_self a _)
        have hb : b ∈ l := List.mem_dedup.mp (hd ▸ by simp)
        have hab : a = b := (hn a ha).trans (hn b hb).symm
        simp [hab] at hnd

/-- C7: for a mapping (distinct labels) with at least two labels, the paired
case builder raises exactly when the per-label value counts disagree, and
with common count `n` it yields `n` cases whose i-th case pairs every label
with the i-th value of its list. -/
theorem C7_paired (m : List (String × List ℚ)) (h2 : 2 ≤ m.length)
    (hkeys : (m.map Prod.fst).Nodup) :
    (cases_from_mapping_pair m = none ↔ ¬∃ n, ∀ nv ∈ m, nv.2.length = n) ∧
    (∀ n, (∀ nv ∈ m, nv.2.length = n) →
      ∃ cs, cases_from_mapping_pair m = some cs ∧ cs.length = n ∧
        ∀ i, i < n → cs[i]? = some (m.map fun nv => (nv.1, nv.2.getD i 0))) := by
  clear hkeys
  rcases m with _ | ⟨nv0, m1⟩
  · simp at h2
  rcases m1 with _ | ⟨nv1, m2⟩
  · simp at h2
  have hne : ((nv0 :: nv1 :: m2).map fun nv => nv.2.length) ≠ [] := by simp
  constructor
  · rw [show cases_from_mapping_pair (nv0 :: nv1 :: m2) =
      (if (((nv0 :: nv1 :: m2).map fun nv => nv.2.length).dedup.length ≠ 1) then none
       else some ((List.range nv0.2.length).map fun i =>
         (nv0 :: nv1 :: m2).map fun nv => (nv.1, nv.2.getD i 0))) from rfl]
    by_cases hd : (((nv0 :: nv1 :: m2).map fun nv => nv.2.length).dedup.length = 1)
    · simp only [hd, ne_eq, not_true_eq_false, if_false]
      simp only [Option.some_ne_none, false_iff, not_not]
      obtain ⟨n, hn⟩ := (dedup_length_one_iff hne).mp hd
      exact ⟨n, fun nv hnv => hn _ (List.mem_map_of_mem _ hnv)⟩
    · simp only [hd, ne_eq, not_false_eq_true, if_true, true_iff]
      intro ⟨n, hn⟩
      exact hd ((dedup_length_one_iff hne).mpr
        ⟨n, fun x hx => by
          obtain ⟨nv, hnv, rfl⟩ := List.mem_map.mp hx
          exact hn nv hnv⟩)
  · intro n hn
    have hd : (((nv0 :: nv1 :: m2).map fun nv => nv.2.length).dedup.length = 1) :=
      (dedup_length_one_iff hne).mpr ⟨n, fun x hx => by
        obtain ⟨nv, hnv, rfl⟩ := List.mem_map.mp hx
        exact hn nv hnv⟩
    have h0 : nv0.2.length = n := hn nv0 (by simp)
    refine ⟨(List.range nv0.2.length).map fun i =>
        (nv0 :: nv1 :: m2).map fun nv => (nv.1, nv.2.getD i 0), ?_, ?_, ?_⟩
    · rw [show cases_from_mapping_pair (nv0 :: nv1 :: m2) =
        (if (((nv0 :: nv1 :: m2).map fun nv => nv.2.length).dedup.length ≠ 1) then none
         else some ((List.range nv0.2.length).map fun i =>
           (nv0 :: nv1 :: m2).map fun nv => (nv.1, nv.2.getD i 0))) from rfl]
      simp only [List.map_cons] at hd
      simp [hd]
    · simp [h0]
    · intro i hi
      rw [List.getElem?_map, List.getElem?_range (by omega : i < nv0.2.length)]
      rfl

/-- Mapping used by the C7 witness: two labels with two values each. -/
def pairMapW : List (String × List ℚ) := [("A", [1, 2]), ("B", [3, 4])]

/-- C7 witness at `{A: [1,2], B: [3,4]}`: two cases, case i pairing each label
with its i-th value. -/
theorem C7_witness :
    2 ≤ pairMapW.length ∧ (pairMapW.map Prod.fst).Nodup ∧
    ∃ cs, cases_from_mapping_pair pairMapW = some cs ∧ cs.length = 2 ∧
      ∀ i, i < 2 → cs[i]? = some (pairMapW.map fun nv => (nv.1, nv.2.getD i 0)) :=
  ⟨by simp [pairMapW], by simp [pairMapW],
    (C7_paired pairMapW (by simp [pairMapW]) (by simp [pairMapW])).2 2
      (by
        intro nv hnv
        simp only [pairMapW, List.mem_cons, List.not_mem_nil, or_false] at hnv
        rcases hnv with rfl | rfl <;> rfl)⟩

/-- Helper: `addVertex` preserves the collection invariant. -/
theorem addVertex_inv {st : CollectSt} (h : CollectInv st) (v : GVtx) :
    CollectInv (addVertex st v) := by
  obtain ⟨h1, h2⟩ := h
  unfold addVertex
  rcases v with ⟨_ | p⟩
  · exact ⟨by simp [List.filterMap_append, keyOf, h1], h2⟩
  · simp only
    by_cases hk : vtxKey p ∈ st.seen
    · simp only [hk, if_true]; exact ⟨h1, h2⟩
    · simp only [hk, if_false]
      refine ⟨by simp [List.filterMap_append, keyOf, h1], ?_⟩
      simpa [List.nodup_append, h2] using hk

/-- Helper: `addPointObj` preserves the collection invariant. -/
theorem addPointObj_inv {st : CollectSt} (h : CollectInv st) (p? : Option (ℚ × ℚ)) :
    CollectInv (addPointObj st p?) := by
  obtain ⟨h1, h2⟩ := h
  unfold addPointObj
  rcases p? with _ | p
  · exact ⟨h1, h2⟩
  · simp only
    by_cases hk : vtxKey p ∈ st.seen
    · simp only [hk, if_true]; exact ⟨h1, h2⟩
    · simp only [hk, if_false]
      refine ⟨by simp [List.filterMap_append, keyOf, h1], ?_⟩
      simpa [List.nodup_append, h2] using hk

/-- Helper: folding `addVertex` preserves the collection invariant. -/
theorem foldl_addVertex_inv {st : CollectSt} (h : CollectInv st) (vs : List GVtx) :
    CollectInv (vs.foldl addVertex st) := by
  induction vs generalizing st with
  | nil => exact h
  | cons v rest ih => exact ih (addVertex_inv h v)

/-- Helper: folding edge endpoints preserves the collection invariant. -/
theorem foldl_addPointObj_inv {st : CollectSt} (h : CollectInv st)
    (es : List (Option (ℚ × ℚ) × Option (ℚ × ℚ))) :
    CollectInv (es.foldl (fun st e => addPointObj (addPointObj st e.1) e.2) st) := by
  induction es generalizing st with
  | nil => exact h
  | cons e rest ih => exact ih (addPointObj_inv (addPointObj_inv h e.1) e.2)

/-- Helper: the per-label collection step preserves the invariant. -/
theorem collectForLabel_inv {st : CollectSt} (h : CollectInv st) (m : GModel)
    (label : String) : CollectInv (collectForLabel m st label) := by
  rcases hb : m.blocks label with _ | blk
  · simp only [collectForLabel, hb]; exact h
  · simp only [collectForLabel, hb]
    rcases hv : (match blk.vertsA with
           | some vs => some vs
           | none => blk.selVerts) with _ | vs
    · rw [hv]
      rcases he : blk.edges with _ | es
      · exact h
      · exact foldl_addPointObj_inv h es
    · rw [hv]
      exact foldl_addVertex_inv h vs

/-- C8: the vertex set collected for a list of labels never contains two
vertices with the same rounded-coordinate key — a shared vertex is collected
(and hence moved) exactly once. -/
theorem C8_dedup (m : GModel) (labels : List String) :
    ((collect_vertices_for_labels m labels).filterMap keyOf).Nodup := by
  suffices h : ∀ st : CollectSt, CollectInv st →
      CollectInv (labels.foldl (collectForLabel m) st) by
    have hf := h ⟨[], []⟩ ⟨rfl, List.nodup_nil⟩
    unfold collect_vertices_for_labels
    rw [hf.1]
    exact hf.2
  induction labels with
  | nil => exact fun st h => h
  | cons l rest ih => exact fun st h => ih _ (collectForLabel_inv h m l)

/-- C10: a requested move whose delta components are both within `1e-9` is a
successful no-op — the state (host call counters, trace, tracked rectangle,
cumulative position) is returned exactly unchanged and no host move is
invoked. -/
theorem C10_noop_move (h : Host) (st : St) (dx dy : ℚ) (hdx : |dx| ≤ eps9)
    (hdy : |dy| ≤ eps9) : move_by_xy h st dx dy = (true, st) := by
  unfold move_by_xy
  rw [if_pos ⟨hdx, hdy⟩]

/-- C10 witness at delta `(1e-9, 0)` on the all-success host. -/
theorem C10_noop_move_witness :
    |eps9| ≤ eps9 ∧ |(0 : ℚ)| ≤ eps9 ∧ move_by_xy hostW st0 eps9 0 = (true, st0) :=
  ⟨by rw [abs_of_pos (by norm_num [eps9])], by norm_num [eps9],
    C10_noop_move hostW st0 eps9 0 (by rw [abs_of_pos (by norm_num [eps9])])
      (by norm_num [eps9])⟩

/-- Helper: indexing a flatMap whose pieces share one length. -/
theorem flatMap_getElem? {α β : Type} (l : List α) (f : α → List β) (n : ℕ)
    (hf : ∀ a ∈ l, (f a).length = n) (i j : ℕ) (hj : j < n) :
    ∀ (a : α), l[i]? = some a → (l.flatMap f)[i * n + j]? = (f a)[j]? := by
  induction l generalizing i with
  | nil => intro a ha; simp at ha
  | cons b rest ih =>
    intro a ha
    cases i with
    | zero =>
      simp only [List.getElem?_cons_zero, Option.some.injEq] at ha
      subst ha
      simp only [Nat.zero_mul, Nat.zero_add, List.flatMap_cons]
      rw [List.getElem?_append_left (by rw [hf _ (List.mem_cons_self _ _)]; exact hj)]
    | succ i' =>
      simp only [List.getElem?_cons_succ] at ha
      simp only [List.flatMap_cons]
      rw [List.getElem?_append_right (by rw [hf b (by simp)]; nlinarith [Nat.succ_mul i' n]),
        hf b (by simp)]
      have harith : (i' + 1) * n + j - n = i' * n + j := by
        rw [Nat.succ_mul]; omega
      rw [harith]
      exact ih (fun a ha' => hf a (by simp [ha'])) i' a ha

/-- Helper: length of a flatMap whose pieces share one length. -/
theorem length_flatMap_const {α β : Type} (l : List α) (f : α → List β) (n : ℕ)
    (hf : ∀ a ∈ l, (f a).length = n) : (l.flatMap f).length = l.length * n := by
  induction l with
  | nil => simp
  | cons b rest ih =>
    simp only [List.flatMap_cons, List.length_append, List.length_cons,
      hf b (List.mem_cons_self _ _), ih (fun a ha => hf a (by simp [ha]))]
    ring

/-- C9: the rendered table's header is the two position-axis cells `dx`, `dy`
followed by exactly one cell per (case, output-column) pair in case-major
order; there is exactly one data row per sampled position, in sampled order,
each row holding for case `i+1` and the j-th output column exactly the
recorded cell (whose absence, rendered as the empty string, is the `none`
entry). -/
theorem C9_table (inp : Inputs) (seen : List (String × List String))
    (cells : (ℚ × ℚ) → ℕ → String → Option ℚ) :
    (headerRow inp seen).length =
      2 + inp.cases.length * (outputCols inp.integrals seen).length ∧
    (headerRow inp seen)[0]? = some (HCell.axis "dx") ∧
    (headerRow inp seen)[1]? = some (HCell.axis "dy") ∧
    (∀ i j (hi : i < inp.cases.length)
        (hj : j < (outputCols inp.integrals seen).length),
      (headerRow inp seen)[2 + (i * (outputCols inp.integrals seen).length + j)]? =
        some (HCell.pair (inp.cases.get ⟨i, hi⟩)
          ((outputCols inp.integrals seen).get ⟨j, hj⟩))) ∧
    (dataRows inp seen cells).length = inp.positions.length ∧
    (∀ k (hk : k < inp.positions.length),
      (dataRows inp seen cells)[k]? =
        some (inp.positions.get ⟨k, hk⟩,
          dataRow inp seen cells (inp.positions.get ⟨k, hk⟩))) ∧
    (∀ p, (dataRow inp seen cells p).length =
      inp.cases.length * (outputCols inp.integrals seen).length) ∧
    (∀ p i j (hi : i < inp.cases.length)
        (hj : j < (outputCols inp.integrals seen).length),
      (dataRow inp seen cells p)[i * (outputCols inp.integrals seen).length + j]? =
        some (cells p (i + 1) ((outputCols inp.integrals seen).get ⟨j, hj⟩))) := by
  have hcons : headerRow inp seen = HCell.axis "dx" :: HCell.axis "dy" ::
      (inp.cases.flatMap fun vals =>
        (outputCols inp.integrals seen).map (HCell.pair vals)) := rfl
  refine ⟨?_, by rw [hcons]; rfl, by rw [hcons]; simp, ?_, ?_, ?_, ?_, ?_⟩
  · rw [hcons]
    simp only [List.length_cons]
    rw [length_flatMap_const inp.cases _ (outputCols inp.integrals seen).length
      (fun a _ => by simp)]
    omega
  · intro i j hi hj
    rw [hcons,
      show 2 + (i * (outputCols inp.integrals seen).length + j) =
        (i * (outputCols inp.integrals seen).length + j) + 1 + 1 by omega,
      List.getElem?_cons_succ, List.getElem?_cons_succ]
    rw [flatMap_getElem? _ _ _ (fun a _ => by simp) i j hj _
      (List.getElem?_eq_getElem hi)]
    rw [List.getElem?_map, List.getElem?_eq_getElem hj]
    simp [List.get_eq_getElem]
  · simp [dataRows]
  · intro k hk
    unfold dataRows
    rw [List.getElem?_map, List.getElem?_eq_getElem hk]
    simp [List.get_eq_getElem]
  · intro p
    unfold dataRow
    rw [length_flatMap_const _ _ (outputCols inp.integrals seen).length
      (fun a _ => by simp)]
    simp
  · intro p i j hi hj
    unfold dataRow
    rw [flatMap_getElem? _ _ _ (fun a _ => by simp) i j hj (1 + 1 * i)
      (List.getElem?_range' 1 1 (by simpa using hi)),
      show 1 + 1 * i = i + 1 by omega]
    rw [List.getElem?_map, List.getElem?_eq_getElem hj]
    simp [List.get_eq_getElem]

/-- C9 witness on the two-case, one-integral inputs: the first pair column of
the header is (case `A=100`, column `F`). -/
theorem C9_witness :
    0 < inpW.cases.length ∧ 0 < (outputCols inpW.integrals seenW).length ∧
    (headerRow inpW seenW)[2 + (0 * (outputCols inpW.integrals seenW).length + 0)]? =
      some (HCell.pair [("A", 100)] "F") := by
  have h1 : 0 < inpW.cases.length := by simp [inpW]
  have h2 : 0 < (outputCols inpW.integrals seenW).length := by
    simp [outputCols, inpW, seenW]
  refine ⟨h1, h2, ?_⟩
  rw [(C9_table inpW seenW (fun _ _ _ => none)).2.2.2.1 0 0 h1 h2]
  have hcols : outputCols [("F", 15)] seenW = ["F"] := by
    simp [outputCols, seenW, colName]
  simp [inpW, hcols, List.get_eq_getElem]

/-- Helper: full case analysis of one `_move_by_xy` call. -/
theorem move_by_xy_cases (h : Host) (st : St) (dx dy : ℚ) :
    (|dx| ≤ eps9 ∧ |dy| ≤ eps9 ∧ move_by_xy h st dx dy = (true, st)) ∨
    (¬(|dx| ≤ eps9 ∧ |dy| ≤ eps9) ∧ h.move st.nMove = true ∧
      move_by_xy h st dx dy =
        (true,
         { st with nMove := st.nMove + 1,
                   rect := translateRect st.rect dx dy,
                   curX := st.curX + dx,
                   curY := st.curY + dy,
                   trace := st.trace ++
                     [Event.moveEvt dx dy true (st.curX + dx) (st.curY + dy)
                       (translateRect st.rect dx dy)] })) ∨
    (¬(|dx| ≤ eps9 ∧ |dy| ≤ eps9) ∧ h.move st.nMove = false ∧
      move_by_xy h st dx dy =
        (false,
         { st with nMove := st.nMove + 1,
                   trace := st.trace ++
                     [Event.moveEvt dx dy false st.curX st.curY st.rect] })) := by
  by_cases hsm : |dx| ≤ eps9 ∧ |dy| ≤ eps9
  · exact Or.inl ⟨hsm.1, hsm.2, by unfold move_by_xy; rw [if_pos hsm]⟩
  · cases hmv : h.move st.nMove with
    | true =>
      refine Or.inr (Or.inl ⟨hsm, rfl, ?_⟩)
      unfold move_by_xy
      rw [if_neg hsm, hmv]
      simp
    | false =>
      refine Or.inr (Or.inr ⟨hsm, rfl, ?_⟩)
      unfold move_by_xy
      rw [if_neg hsm, hmv]
      simp

/-- C4: the finally-block embedding runs on every exit of the case body (by
the structure of `runCases`); it is the identity when the cumulative
displacement is already within tolerance, otherwise it issues exactly the
restoring move `(-curX, -curY)` and afterwards either the cumulative
displacement is exactly `(0, 0)` or a restoration warning is on the trace;
and a case body aborting with `code` makes the case loop return exactly that
`code`, whatever the restoration outcome. -/
theorem C4_restore (h : Host) (inp : Inputs) :
    (∀ st1 : St,
      ((|st1.curX| ≤ eps9 ∧ |st1.curY| ≤ eps9) → caseFinally h inp st1 = st1) ∧
      ((eps9 < |st1.curX| ∨ eps9 < |st1.curY|) →
        (∃ ok cx cy rc,
          Event.moveEvt (-st1.curX) (-st1.curY) ok cx cy rc ∈
            (caseFinally h inp st1).trace) ∧
        (((caseFinally h inp st1).curX = 0 ∧ (caseFinally h inp st1).curY = 0) ∨
          Event.warnRestore ∈ (caseFinally h inp st1).trace))) ∧
    (∀ base p0 idx vals rest st code stB,
      h.cancel st.nCancel = false →
      caseBody h inp idx p0
        (prepCase inp base vals
          (doPoll h { st with trace := st.trace ++ [Event.caseStart idx] }).2) =
        (CaseExit.abort code, stB) →
      (runCases h inp base p0 idx (vals :: rest) st).1 = some code) := by
  constructor
  · intro st1
    constructor
    · intro ⟨hx, hy⟩
      unfold caseFinally
      rw [if_neg (by push_neg; exact ⟨hx, hy⟩)]
    · intro hfar
      unfold caseFinally
      rw [if_pos hfar]
      have hreal : ¬(|(-st1.curX)| ≤ eps9 ∧ |(-st1.curY)| ≤ eps9) := by
        rw [abs_neg, abs_neg]
        rcases hfar with hx | hy
        · exact fun ⟨c1, _⟩ => absurd c1 (not_le.mpr hx)
        · exact fun ⟨_, c2⟩ => absurd c2 (not_le.mpr hy)
      obtain ⟨ok, stM, heq⟩ : ∃ ok stM,
          move_by_xy h { st1 with trace := st1.trace ++ [Event.restoreStart] }
            (-st1.curX) (-st1.curY) = (ok, stM) := ⟨_, _, rfl⟩
      have hfacts : (ok = true → stM.curX = 0 ∧ stM.curY = 0) ∧
          (∃ cx cy rc, Event.moveEvt (-st1.curX) (-st1.curY) ok cx cy rc ∈ stM.trace) := by
        rcases move_by_xy_cases h { st1 with trace := st1.trace ++ [Event.restoreStart] }
            (-st1.curX) (-st1.curY) with ⟨c1, c2, _⟩ | ⟨_, hmv, heq2⟩ | ⟨_, hmv, heq2⟩
        · exact absurd ⟨c1, c2⟩ hreal
        · rw [heq] at heq2
          obtain ⟨hok, hstM⟩ := Prod.mk.inj heq2
          subst hstM
          refine ⟨fun _ => ⟨by simp, by simp⟩,
            st1.curX + -st1.curX, st1.curY + -st1.curY,
            translateRect st1.rect (-st1.curX) (-st1.curY), ?_⟩
          rw [hok]
          simp
        · rw [heq] at heq2
          obtain ⟨hok, hstM⟩ := Prod.mk.inj heq2
          subst hstM
          refine ⟨fun hcontr => absurd (hok ▸ hcontr) (by simp),
            st1.curX, st1.curY, st1.rect, ?_⟩
          rw [hok]
          simp
      rw [heq]
      cases ok with
      | false =>
        simp only
        obtain ⟨cx, cy, rc, hmem⟩ := hfacts.2
        exact ⟨⟨false, cx, cy, rc, by simp [hmem]⟩, Or.inr (by simp)⟩
      | true =>
        simp only
        obtain ⟨hcx, hcy⟩ := hfacts.1 rfl
        obtain ⟨cx, cy, rc, hmem⟩ := hfacts.2
        cases hm : inp.mesh with
        | false =>
          simp only [Bool.false_eq_true, if_false]
          exact ⟨⟨true, cx, cy, rc, hmem⟩, Or.inl ⟨hcx, hcy⟩⟩
        | true =>
          simp only [if_true]
          unfold doMesh
          cases hmm : h.mesh stM.nMesh with
          | true =>
            simp only
            exact ⟨⟨true, cx, cy, rc, by simp [hmem]⟩, Or.inl ⟨by simp [hcx], by simp [hcy]⟩⟩
          | false =>
            simp only
            exact ⟨⟨true, cx, cy, rc, by simp [hmem]⟩, Or.inl ⟨by simp [hcx], by simp [hcy]⟩⟩
  · intro base p0 idx vals rest st code stB hc hbody
    have hpoll : doPoll h { st with trace := st.trace ++ [Event.caseStart idx] } =
        (false, { st with nCancel := st.nCancel + 1,
                          trace := (st.trace ++ [Event.caseStart idx]) ++
                            [Event.poll false] }) := by
      simp [doPoll, hc]
    rw [hpoll] at hbody
    simp only [runCases]
    rw [hpoll]
    simp only
    rw [hbody]

/-- Helper: the rectangle checker consumes concatenated traces in sequence. -/
theorem chkRun_append (base : Rect) (t1 t2 : List Event) (s : ChkSt) :
    chkRun base (t1 ++ t2) s =
      (chkRun base t1 s).bind (fun s1 => chkRun base t2 s1) := by
  induction t1 generalizing s with
  | nil => rfl
  | cons e rest ih =>
    simp only [List.cons_append, chkRun]
    cases chkStep base s e with
    | none => rfl
    | some s1 => exact ih s1

/-- Helper: translating twice adds the displacements. -/
theorem translateRect_trans (r : Rect) (a b c d : ℚ) :
    translateRect (translateRect r a b) c d = translateRect r (a + c) (b + d) := by
  simp only [translateRect, Rect.mk.injEq]
  refine ⟨by ring, by ring, by ring, by ring⟩

/-- Helper: translating by zero is the identity. -/
theorem translateRect_zero (r : Rect) : translateRect r 0 0 = r := by
  simp [translateRect]

/-- Helper: the fallback-last of a cons. -/
theorem lastPrev_cons (prev : Option Event) (e : Event) (rest : List Event) :
    lastPrev prev (e :: rest) = lastPrev (some e) rest := by
  cases rest with
  | nil => simp [lastPrev]
  | cons f r2 =>
    simp only [lastPrev, List.getLast?_cons_cons]
    cases hr : (f :: r2).getLast? with
    | none => simp at hr
    | some g => rfl

/-- Helper: the boundary-poll scanner over a concatenation. -/
theorem pollsFrom_append (t1 t2 : List Event) (prev : Option Event) :
    pollsAtBoundariesFrom prev (t1 ++ t2) =
      (pollsAtBoundariesFrom prev t1 && pollsAtBoundariesFrom (lastPrev prev t1) t2) := by
  induction t1 generalizing prev with
  | nil => simp [pollsAtBoundariesFrom, lastPrev]
  | cons e rest ih =>
    simp only [List.cons_append, pollsAtBoundariesFrom, List.append_eq, ih (some e),
      lastPrev_cons, Bool.and_assoc]

/-- Helper: the checker passes over neutral events. -/
theorem chkStep_neutral (base : Rect) (s : ChkSt) (e : Event)
    (he : chkNeutral e = true) : chkStep base s e = some s := by
  cases e <;> simp [chkNeutral] at he ⊢ <;> rfl

/-- Helper: the checker passes over neutral segments. -/
theorem chkRun_neutral (base : Rect) (Δ : List Event)
    (hw : ∀ e ∈ Δ, chkNeutral e = true) (s : ChkSt) : chkRun base Δ s = some s := by
  induction Δ with
  | nil => rfl
  | cons e rest ih =>
    simp only [chkRun, chkStep_neutral base s e (hw e (by simp))]
    exact ih (fun e he => hw e (by simp [he]))

/-- Helper: poll-free segments pass the boundary-poll scanner. -/
theorem pollsFrom_nopoll (Δ : List Event) (hnp : ∀ e ∈ Δ, isPoll e = false) :
    ∀ prev, pollsAtBoundariesFrom prev Δ = true := by
  induction Δ with
  | nil => intro prev; rfl
  | cons e rest ih =>
    intro prev
    have he := hnp e (by simp)
    simp only [pollsAtBoundariesFrom]
    rw [ih (fun e he => hnp e (by simp [he]))]
    cases e <;> simp [isPoll] at he ⊢

/-- Helper: poll-free segments observe no cancellation. -/
theorem noPT_of_nopoll (Δ : List Event) (hnp : ∀ e ∈ Δ, isPoll e = false) : NoPT Δ := by
  intro hmem
  have := hnp _ hmem
  simp [isPoll] at this

/-- Helper: effect of recording one integral's components — only record
events are appended, geometry fields are untouched, and every new cell value
has its record event in the appended segment. -/
theorem recordComps_facts (key : ℚ × ℚ) (idx : ℕ) (nm : String)
    (comps : List (String × ℚ)) : ∀ st : St,
    ∃ Δ, (recordComps key idx nm comps st).trace = st.trace ++ Δ ∧
      (∀ e ∈ Δ, chkNeutral e = true ∧ isPoll e = false ∧ postCancelOk e = false) ∧
      (recordComps key idx nm comps st).curX = st.curX ∧
      (recordComps key idx nm comps st).curY = st.curY ∧
      (recordComps key idx nm comps st).rect = st.rect ∧
      CellsMono st (recordComps key idx nm comps st) Δ := by
  induction comps with
  | nil =>
    intro st
    exact ⟨[], by simp [recordComps], by simp, rfl, rfl, rfl,
      fun k i c v h => Or.inl h⟩
  | cons cv rest ih =>
    intro st
    have hfold : recordComps key idx nm (cv :: rest) st =
        recordComps key idx nm rest
          { st with seen := seenAdd st.seen nm cv.1,
                    cells := cellsSet st.cells key idx (colName nm cv.1) cv.2,
                    trace := st.trace ++
                      [Event.recordEvt key idx (colName nm cv.1) cv.2] } := rfl
    obtain ⟨Δ, h1, h2, h3, h4, h5, h6⟩ := ih
      { st with seen := seenAdd st.seen nm cv.1,
                cells := cellsSet st.cells key idx (colName nm cv.1) cv.2,
                trace := st.trace ++ [Event.recordEvt key idx (colName nm cv.1) cv.2] }
    refine ⟨Event.recordEvt key idx (colName nm cv.1) cv.2 :: Δ, ?_, ?_, ?_, ?_, ?_, ?_⟩
    · rw [hfold, h1]; simp
    · intro e he
      rcases List.mem_cons.mp he with rfl | hrest
      · exact ⟨rfl, rfl, rfl⟩
      · exact h2 e hrest
    · rw [hfold, h3]
    · rw [hfold, h4]
    · rw [hfold, h5]
    · intro k i c v hv
      rw [hfold] at hv
      rcases h6 k i c v hv with hold | hmem
      · simp only [cellsSet] at hold
        by_cases hcond : k = key ∧ i = idx ∧ c = colName nm cv.1
        · rw [if_pos hcond] at hold
          obtain ⟨rfl, rfl, rfl⟩ := hcond
          obtain rfl : cv.2 = v := by injection hold
          exact Or.inr (by simp)
        · rw [if_neg hcond] at hold
          exact Or.inl hold
      · exact Or.inr (by simp [hmem])

/-- Helper: effect of the integrals loop — only integral and record events
are appended, geometry fields are untouched, new cell values come with their
record events, and an abort carries code 13. -/
theorem integralsLoop_facts (h : Host) (key : ℚ × ℚ) (idx : ℕ) :
    ∀ (ints : List (String × ℤ)) (st : St) (r : Option ℕ) (st' : St),
    integralsLoop h key idx ints st = (r, st') →
    ∃ Δ, st'.trace = st.trace ++ Δ ∧
      (∀ e ∈ Δ, chkNeutral e = true ∧ isPoll e = false) ∧
      st'.curX = st.curX ∧ st'.curY = st.curY ∧ st'.rect = st.rect ∧
      CellsMono st st' Δ ∧ (r = none ∨ r = some 13) := by
  intro ints
  induction ints with
  | nil =>
    intro st r st' heq
    obtain ⟨rfl, rfl⟩ := Prod.mk.inj heq.symm
    exact ⟨[], by simp, by simp, rfl, rfl, rfl, fun k i c v h => Or.inl h, Or.inl rfl⟩
  | cons it rest ih =>
    intro st r st' heq
    obtain ⟨nm, iid⟩ := it
    rcases hint : h.integral st.nInt with _ | comps
    · rw [show integralsLoop h key idx ((nm, iid) :: rest) st =
          (some 13, { st with nInt := st.nInt + 1,
                              trace := st.trace ++ [Event.integralEvt false] })
        from by simp only [integralsLoop, hint]] at heq
      obtain ⟨rfl, rfl⟩ := Prod.mk.inj heq.symm
      exact ⟨[Event.integralEvt false], by simp, by simp [chkNeutral, isPoll], rfl, rfl,
        rfl, fun k i c v h => Or.inl h, Or.inr rfl⟩
    · rw [show integralsLoop h key idx ((nm, iid) :: rest) st =
          integralsLoop h key idx rest
            (recordComps key idx nm comps
              { st with nInt := st.nInt + 1,
                        trace := st.trace ++ [Event.integralEvt true] })
        from by simp only [integralsLoop, hint]] at heq
      obtain ⟨Δr, hr1, hr2, hr3, hr4, hr5, hr6⟩ := recordComps_facts key idx nm comps
        { st with nInt := st.nInt + 1, trace := st.trace ++ [Event.integralEvt true] }
      obtain ⟨Δ2, g1, g2, g3, g4, g5, g6, g7⟩ := ih _ r st' heq
      refine ⟨Event.integralEvt true :: (Δr ++ Δ2), ?_, ?_, ?_, ?_, ?_, ?_, g7⟩
      · rw [g1, hr1]; simp
      · intro e he
        rcases List.mem_cons.mp he with rfl | hrest
        · exact ⟨rfl, rfl⟩
        · rcases List.mem_append.mp hrest with hm | hm
          · exact ⟨(hr2 e hm).1, (hr2 e hm).2.1⟩
          · exact g2 e hm
      · rw [g3, hr3]
      · rw [g4, hr4]
      · rw [g5, hr5]
      · intro k i c v hv
        rcases g6 k i c v hv with hmid | hmem
        · rcases hr6 k i c v hmid with hold | hmem2
          · exact Or.inl hold
          · exact Or.inr (by simp [hmem2])
        · exact Or.inr (by simp [hmem])
/-- Helper: a split at an element absent from the prefix of a one-element
suffix must be the final position. -/
theorem split_at_last {α : Type} {x : α} :
    ∀ {A C : List α} {B : List α}, A ++ x :: B = C ++ [x] → x ∉ C → B = [] := by
  intro A C
  induction C generalizing A with
  | nil =>
    intro B hx _
    have hlen := congrArg List.length hx
    simp at hlen
    rcases A with _ | ⟨a, A2⟩
    · simpa using congrArg (fun l => l.drop 1) hx
    · simp at hlen
      omega
  | cons c C2 ih =>
    intro B hx hC
    rcases A with _ | ⟨a, A2⟩
    · simp only [List.nil_append, List.cons_append, List.cons.injEq] at hx
      exact absurd (hx.1 ▸ List.mem_cons_self c C2) hC
    · simp only [List.cons_append, List.cons.injEq] at hx
      exact ih hx.2 (fun hmem => hC (List.mem_cons_of_mem c hmem))

/-- Helper: empty terminal segment facts. -/
theorem exCommon_nil (st : St) (ex : CaseExit) (h1 : ex ≠ CaseExit.cancelledBrk)
    (h2 : ∀ code, ex = CaseExit.abort code → code ≠ 99) :
    ExCommon st st ex [] ∧ ChkSeg st st [] := by
  refine ⟨⟨by simp, by simp [h1], h2, fun hc => absurd hc h1, fun k i c v h => Or.inl h,
    fun prev => rfl⟩, fun base s hs => ⟨s, rfl, hs⟩⟩

/-- Helper: prepending a neutral poll-free segment to position-loop facts. -/
theorem exCommon_prepend {st stM st' : St} {ex : CaseExit} {Δn Δ : List Event}
    (htr : stM.trace = st.trace ++ Δn)
    (hn : ∀ e ∈ Δn, chkNeutral e = true ∧ isPoll e = false)
    (hx : stM.curX = st.curX) (hy : stM.curY = st.curY) (hr : stM.rect = st.rect)
    (hcm : CellsMono st stM Δn)
    (hEx : ExCommon stM st' ex Δ) (hChk : ChkSeg stM st' Δ) :
    ExCommon st st' ex (Δn ++ Δ) ∧ ChkSeg st st' (Δn ++ Δ) := by
  obtain ⟨e1, e2, e3, e4, e5, e6⟩ := hEx
  have hnopt : NoPT Δn := noPT_of_nopoll Δn (fun e he => (hn e he).2)
  constructor
  · refine ⟨by rw [e1, htr, List.append_assoc], ?_, e3, ?_, ?_, ?_⟩
    · rw [List.mem_append]
      constructor
      · rintro (hmem | hmem)
        · exact absurd hmem hnopt
        · exact e2.mp hmem
      · intro hex
        exact Or.inr (e2.mpr hex)
    · intro hc
      obtain ⟨Δ₀, p, hΔ, hnp⟩ := e4 hc
      refine ⟨Δn ++ Δ₀, p, by rw [hΔ, List.append_assoc], ?_⟩
      intro hmem
      rcases List.mem_append.mp hmem with hm | hm
      · exact hnopt hm
      · exact hnp hm
    · intro k i c v hv
      rcases e5 k i c v hv with hmid | hmem
      · rcases hcm k i c v hmid with hold | hmem2
        · exact Or.inl hold
        · exact Or.inr (by simp [hmem2])
      · exact Or.inr (by simp [hmem])
    · intro prev
      rw [pollsFrom_append,
        pollsFrom_nopoll Δn (fun e he => (hn e he).2) prev, Bool.true_and]
      exact e6 _
  · intro base s hs
    obtain ⟨s', hrun, hinv⟩ := hChk base s ⟨by rw [hx, hy]; exact hs.1,
      by rw [hx, hy, hr]; exact hs.2⟩
    refine ⟨s', ?_, hinv⟩
    rw [chkRun_append, chkRun_neutral base Δn (fun e he => (hn e he).1) s,
      Option.some_bind]
    exact hrun

/-- Helper: the boundary-poll scanner steps over a non-poll event. -/
theorem pollsFrom_cons_nonpoll (prev : Option Event) (e : Event) (rest : List Event)
    (he : isPoll e = false) :
    pollsAtBoundariesFrom prev (e :: rest) = pollsAtBoundariesFrom (some e) rest := by
  cases e <;> simp [isPoll] at he ⊢ <;> simp [pollsAtBoundariesFrom]

/-- Helper: a poll directly after a position marker passes the scanner. -/
theorem pollsFrom_poll_after_pos (p : ℚ × ℚ) (b : Bool) (rest : List Event) :
    pollsAtBoundariesFrom (some (Event.posStart p)) (Event.poll b :: rest) =
      pollsAtBoundariesFrom (some (Event.poll b)) rest := by
  simp [pollsAtBoundariesFrom]

/-- Helper: a poll directly after a case marker passes the scanner. -/
theorem pollsFrom_poll_after_case (i : ℕ) (b : Bool) (rest : List Event) :
    pollsAtBoundariesFrom (some (Event.caseStart i)) (Event.poll b :: rest) =
      pollsAtBoundariesFrom (some (Event.poll b)) rest := by
  simp [pollsAtBoundariesFrom]

/-- Helper: position-loop facts for the cancelled-at-boundary terminal. -/
theorem exCommon_cancelTerm (st stQ : St) (p : ℚ × ℚ)
    (htr : stQ.trace = st.trace ++ [Event.posStart p, Event.poll true])
    (hx : stQ.curX = st.curX) (hy : stQ.curY = st.curY) (hr : stQ.rect = st.rect)
    (hc : ∀ k i c, stQ.cells k i c = st.cells k i c) :
    ExCommon st stQ CaseExit.cancelledBrk [Event.posStart p, Event.poll true] ∧
    ChkSeg st stQ [Event.posStart p, Event.poll true] := by
  constructor
  · refine ⟨htr, by simp, by simp, fun _ => ⟨[], p, by simp, by simp [NoPT]⟩,
      fun k i c v hv => Or.inl (hc k i c ▸ hv), ?_⟩
    intro prev
    rw [pollsFrom_cons_nonpoll prev (Event.posStart p) _ rfl, pollsFrom_poll_after_pos]
    rfl
  · intro base s hs
    exact ⟨⟨s.cum, none⟩, rfl,
      by show s.cum = (stQ.curX, stQ.curY); rw [hx, hy]; exact hs.1,
      by show stQ.rect = translateRect base stQ.curX stQ.curY
         rw [hr, hx, hy]; exact hs.2⟩

/-- Helper: position-loop facts for the failed-move terminal. -/
theorem exCommon_moveFail (st stF : St) (p : ℚ × ℚ) (dx dy : ℚ)
    (htg1 : st.curX + dx = p.1) (htg2 : st.curY + dy = p.2)
    (htr : stF.trace = st.trace ++ [Event.posStart p, Event.poll false,
      Event.moveEvt dx dy false st.curX st.curY st.rect])
    (hx : stF.curX = st.curX) (hy : stF.curY = st.curY) (hr : stF.rect = st.rect)
    (hc : ∀ k i c, stF.cells k i c = st.cells k i c) :
    ExCommon st stF (CaseExit.abort 8)
      [Event.posStart p, Event.poll false,
        Event.moveEvt dx dy false st.curX st.curY st.rect] ∧
    ChkSeg st stF
      [Event.posStart p, Event.poll false,
        Event.moveEvt dx dy false st.curX st.curY st.rect] := by
  constructor
  · refine ⟨htr, by simp, ?_, by simp,
      fun k i c v hv => Or.inl (hc k i c ▸ hv), ?_⟩
    · rintro code hcode
      injection hcode with h2
      omega
    · intro prev
      rw [pollsFrom_cons_nonpoll prev (Event.posStart p) _ rfl, pollsFrom_poll_after_pos,
        pollsFrom_cons_nonpoll _ (Event.moveEvt dx dy false st.curX st.curY st.rect) _ rfl]
      rfl
  · intro base s hs
    obtain ⟨hs1, hs2⟩ := hs
    have hstep : chkStep base { s with pending := some p }
        (Event.moveEvt dx dy false st.curX st.curY st.rect) =
        some ⟨s.cum, none⟩ := by
      simp [chkStep, hs1, htg1, htg2, hs2]
    refine ⟨⟨s.cum, none⟩, ?_,
      by show s.cum = (stF.curX, stF.curY); rw [hx, hy]; exact hs1,
      by show stF.rect = translateRect base stF.curX stF.curY
         rw [hr, hx, hy]; exact hs2⟩
    show (match chkStep base { s with pending := some p }
        (Event.moveEvt dx dy false st.curX st.curY st.rect) with
      | none => none
      | some s2 => chkRun base [] s2) = some (⟨s.cum, none⟩ : ChkSt)
    rw [hstep]
    rfl

/-- Helper: prepending a position boundary whose move is a no-op. -/
theorem exCommon_headNoop (st stQ st' : St) (ex : CaseExit) (p : ℚ × ℚ)
    (Δ : List Event)
    (htr : stQ.trace = st.trace ++ [Event.posStart p, Event.poll false])
    (hx : stQ.curX = st.curX) (hy : stQ.curY = st.curY) (hr : stQ.rect = st.rect)
    (hc : ∀ k i c, stQ.cells k i c = st.cells k i c)
    (hEx : ExCommon stQ st' ex Δ) (hChk : ChkSeg stQ st' Δ) :
    ExCommon st st' ex (Event.posStart p :: Event.poll false :: Δ) ∧
    ChkSeg st st' (Event.posStart p :: Event.poll false :: Δ) := by
  obtain ⟨e1, e2, e3, e4, e5, e6⟩ := hEx
  constructor
  · refine ⟨by rw [e1, htr]; simp, by rw [← e2]; simp, e3, ?_, ?_, ?_⟩
    · intro hcan
      obtain ⟨Δ₀, q, hΔ, hnp⟩ := e4 hcan
      refine ⟨Event.posStart p :: Event.poll false :: Δ₀, q, by rw [hΔ]; simp, ?_⟩
      intro hmem
      simp only [NoPT, List.mem_cons] at hmem
      rcases hmem with h1 | h1 | h1
      · exact absurd h1 (by simp)
      · exact absurd h1 (by simp)
      · exact hnp h1
    · intro k i c v hv
      rcases e5 k i c v hv with hold | hmem
      · exact Or.inl (hc k i c ▸ hold)
      · exact Or.inr (by simp [hmem])
    · intro prev
      rw [pollsFrom_cons_nonpoll prev (Event.posStart p) _ rfl, pollsFrom_poll_after_pos]
      exact e6 _
  · intro base s hs
    obtain ⟨s', hrun, hinv⟩ := hChk base { s with pending := some p }
      ⟨by show s.cum = (stQ.curX, stQ.curY); rw [hx, hy]; exact hs.1,
       by show stQ.rect = translateRect base stQ.curX stQ.curY
          rw [hr, hx, hy]; exact hs.2⟩
    exact ⟨s', hrun, hinv⟩

/-- Helper: prepending a position boundary with a successful issued move. -/
theorem exCommon_headMove (st stM st' : St) (ex : CaseExit) (p : ℚ × ℚ) (dx dy : ℚ)
    (Δ : List Event)
    (htg1 : st.curX + dx = p.1) (htg2 : st.curY + dy = p.2)
    (hMtr : stM.trace = st.trace ++ [Event.posStart p, Event.poll false,
      Event.moveEvt dx dy true (st.curX + dx) (st.curY + dy)
        (translateRect st.rect dx dy)])
    (hMx : stM.curX = st.curX + dx) (hMy : stM.curY = st.curY + dy)
    (hMr : stM.rect = translateRect st.rect dx dy)
    (hMc : ∀ k i c, stM.cells k i c = st.cells k i c)
    (hEx : ExCommon stM st' ex Δ) (hChk : ChkSeg stM st' Δ) :
    ExCommon st st' ex (Event.posStart p :: Event.poll false ::
      Event.moveEvt dx dy true (st.curX + dx) (st.curY + dy)
        (translateRect st.rect dx dy) :: Δ) ∧
    ChkSeg st st' (Event.posStart p :: Event.poll false ::
      Event.moveEvt dx dy true (st.curX + dx) (st.curY + dy)
        (translateRect st.rect dx dy) :: Δ) := by
  obtain ⟨e1, e2, e3, e4, e5, e6⟩ := hEx
  constructor
  · refine ⟨by rw [e1, hMtr]; simp, by rw [← e2]; simp, e3, ?_, ?_, ?_⟩
    · intro hcan
      obtain ⟨Δ₀, q, hΔ, hnp⟩ := e4 hcan
      refine ⟨Event.posStart p :: Event.poll false ::
        Event.moveEvt dx dy true (st.curX + dx) (st.curY + dy)
          (translateRect st.rect dx dy) :: Δ₀, q, by rw [hΔ]; simp, ?_⟩
      intro hmem
      simp only [NoPT, List.mem_cons] at hmem
      rcases hmem with h1 | h1 | h1 | h1
      · exact absurd h1 (by simp)
      · exact absurd h1 (by simp)
      · exact absurd h1 (by simp)
      · exact hnp h1
    · intro k i c v hv
      rcases e5 k i c v hv with hold | hmem
      · exact Or.inl (hMc k i c ▸ hold)
      · exact Or.inr (by simp [hmem])
    · intro prev
      rw [pollsFrom_cons_nonpoll prev (Event.posStart p) _ rfl, pollsFrom_poll_after_pos,
        pollsFrom_cons_nonpoll _ (Event.moveEvt dx dy true (st.curX + dx) (st.curY + dy)
          (translateRect st.rect dx dy)) _ rfl]
      exact e6 _
  · intro base s hs
    obtain ⟨hs1, hs2⟩ := hs
    have hC : translateRect st.rect dx dy =
        translateRect base (st.curX + dx) (st.curY + dy) := by
      rw [hs2, translateRect_trans]
    have hstep : chkStep base { s with pending := some p }
        (Event.moveEvt dx dy true (st.curX + dx) (st.curY + dy)
          (translateRect st.rect dx dy)) =
        some ⟨(st.curX + dx, st.curY + dy), none⟩ := by
      simp [chkStep, hs1, htg1, htg2, hC]
    obtain ⟨s', hrun, hinv⟩ := hChk base ⟨(st.curX + dx, st.curY + dy), none⟩
      ⟨by show ((st.curX + dx, st.curY + dy) : ℚ × ℚ) = (stM.curX, stM.curY)
          rw [hMx, hMy],
       by show stM.rect = translateRect base stM.curX stM.curY
          rw [hMr, hMx, hMy, hs2, translateRect_trans]⟩
    refine ⟨s', ?_, hinv⟩
    have hrw : chkRun base (Event.posStart p :: Event.poll false ::
        Event.moveEvt dx dy true (st.curX + dx) (st.curY + dy)
          (translateRect st.rect dx dy) :: Δ) s =
        chkRun base Δ ⟨(st.curX + dx, st.curY + dy), none⟩ := by
      show (match chkStep base { s with pending := some p }
          (Event.moveEvt dx dy true (st.curX + dx) (st.curY + dy)
            (translateRect st.rect dx dy)) with
        | none => none
        | some s2 => chkRun base Δ s2) = chkRun base Δ ⟨(st.curX + dx, st.curY + dy), none⟩
      rw [hstep]
    rw [hrw]
    exact hrun

/-- Helper: one position-loop step is the poll, the move, then the common
tail `afterMove` with the loop on the remaining positions as continuation. -/
theorem runPositions_cons (h : Host) (inp : Inputs) (idx : ℕ) (p : ℚ × ℚ)
    (rest : List (ℚ × ℚ)) (st : St) :
    runPositions h inp idx (p :: rest) st =
      match doPoll h { st with trace := st.trace ++ [Event.posStart p] } with
      | (true, st) => (CaseExit.cancelledBrk, st)
      | (false, st) =>
        match move_by_xy h st (p.1 - st.curX) (p.2 - st.curY) with
        | (false, st) => (CaseExit.abort 8, st)
        | (true, st) => afterMove h inp (runPositions h inp idx rest) p idx st := rfl

/-- Helper: terminal abort after a neutral poll-free segment. -/
theorem exCommon_abortTerm (st stN : St) (code : ℕ) (hcode : code ≠ 99)
    (Δn : List Event)
    (htr : stN.trace = st.trace ++ Δn)
    (hn : ∀ e ∈ Δn, chkNeutral e = true ∧ isPoll e = false)
    (hx : stN.curX = st.curX) (hy : stN.curY = st.curY) (hr : stN.rect = st.rect)
    (hcm : CellsMono st stN Δn) :
    ∃ Δ, ExCommon st stN (CaseExit.abort code) Δ ∧ ChkSeg st stN Δ := by
  obtain ⟨h1, h2⟩ := exCommon_nil stN (CaseExit.abort code) (by simp)
    (by rintro c hc; injection hc with hco; omega)
  exact ⟨Δn ++ [], exCommon_prepend htr hn hx hy hr hcm h1 h2⟩

/-- Helper: facts for the post-move tail of one position-loop iteration,
given facts for the continuation. -/
theorem afterMove_facts (h : Host) (inp : Inputs) (k : St → CaseExit × St)
    (key : ℚ × ℚ) (idx : ℕ)
    (hk : ∀ st ex st', k st = (ex, st') →
      ∃ Δ, ExCommon st st' ex Δ ∧ ChkSeg st st' Δ)
    (st : St) (ex : CaseExit) (st' : St)
    (heq : afterMove h inp k key idx st = (ex, st')) :
    ∃ Δ, ExCommon st st' ex Δ ∧ ChkSeg st st' Δ := by
  unfold afterMove at heq
  obtain ⟨mb, st1, hm⟩ : ∃ b s,
      (if !meshOnceEff inp && inp.mesh then doMesh h st else (true, st)) = (b, s) :=
    ⟨_, _, rfl⟩
  have hF1 : ∃ Δ1, st1.trace = st.trace ++ Δ1 ∧
      (∀ e ∈ Δ1, chkNeutral e = true ∧ isPoll e = false) ∧
      st1.curX = st.curX ∧ st1.curY = st.curY ∧ st1.rect = st.rect ∧
      (∀ k2 i c, st1.cells k2 i c = st.cells k2 i c) := by
    by_cases hg : (!meshOnceEff inp && inp.mesh) = true
    · rw [if_pos hg, show doMesh h st = (h.mesh st.nMesh,
          { st with nMesh := st.nMesh + 1,
                    trace := st.trace ++ [Event.meshEvt (h.mesh st.nMesh)] }) from rfl] at hm
      obtain ⟨hb, hst⟩ := Prod.mk.inj hm
      subst hst
      exact ⟨[Event.meshEvt (h.mesh st.nMesh)], rfl,
        by intro e he; obtain rfl := List.mem_singleton.mp he; exact ⟨rfl, rfl⟩,
        rfl, rfl, rfl, fun _ _ _ => rfl⟩
    · rw [if_neg hg] at hm
      obtain ⟨hb, hst⟩ := Prod.mk.inj hm
      subst hst
      exact ⟨[], by simp, by simp, rfl, rfl, rfl, fun _ _ _ => rfl⟩
  obtain ⟨Δ1, t1, n1, x1, y1, r1, c1⟩ := hF1
  rw [hm] at heq
  cases mb with
  | false =>
    simp only at heq
    obtain ⟨rfl, rfl⟩ := Prod.mk.inj heq.symm
    exact exCommon_abortTerm st _ 9 (by omega) Δ1 t1 n1 x1 y1 r1
      (fun k2 i c v hv => Or.inl (by rw [← c1 k2 i c]; exact hv))
  | true =>
    simp only at heq
    obtain ⟨sb, st2, hs⟩ : ∃ b s, doSolve h st1 = (b, s) := ⟨_, _, rfl⟩
    have hF2 : st2.trace = st1.trace ++ [Event.solveEvt sb] ∧
        st2.curX = st1.curX ∧ st2.curY = st1.curY ∧ st2.rect = st1.rect ∧
        (∀ k2 i c, st2.cells k2 i c = st1.cells k2 i c) := by
      rw [show doSolve h st1 = (h.solve st1.nSolve,
          { st1 with nSolve := st1.nSolve + 1,
                     trace := st1.trace ++ [Event.solveEvt (h.solve st1.nSolve)] })
        from rfl] at hs
      obtain ⟨hb, hst⟩ := Prod.mk.inj hs
      subst hst
      exact ⟨by rw [hb], rfl, rfl, rfl, fun _ _ _ => rfl⟩
    obtain ⟨t2, x2, y2, r2, c2⟩ := hF2
    rw [hs] at heq
    cases sb with
    | false =>
      simp only at heq
      obtain ⟨rfl, rfl⟩ := Prod.mk.inj heq.symm
      refine exCommon_abortTerm st _ 10 (by omega) (Δ1 ++ [Event.solveEvt false])
        (by rw [t2, t1, List.append_assoc]) ?_ (by rw [x2, x1]) (by rw [y2, y1])
        (by rw [r2, r1]) ?_
      · intro e he
        rcases List.mem_append.mp he with hm2 | hm2
        · exact n1 e hm2
        · obtain rfl := List.mem_singleton.mp hm2
          exact ⟨rfl, rfl⟩
      · exact fun k2 i c v hv =>
          Or.inl (by rw [← c1 k2 i c, ← c2 k2 i c]; exact hv)
    | true =>
      simp only at heq
      obtain ⟨rb, st3, hre⟩ : ∃ b s, doRes h st2 = (b, s) := ⟨_, _, rfl⟩
      have hF3 : st3.trace = st2.trace ++ [Event.resEvt rb] ∧
          st3.curX = st2.curX ∧ st3.curY = st2.curY ∧ st3.rect = st2.rect ∧
          (∀ k2 i c, st3.cells k2 i c = st2.cells k2 i c) := by
        rw [show doRes h st2 = (h.result st2.nRes,
            { st2 with nRes := st2.nRes + 1,
                       trace := st2.trace ++ [Event.resEvt (h.result st2.nRes)] })
          from rfl] at hre
        obtain ⟨hb, hst⟩ := Prod.mk.inj hre
        subst hst
        exact ⟨by rw [hb], rfl, rfl, rfl, fun _ _ _ => rfl⟩
      obtain ⟨t3, x3, y3, r3, c3⟩ := hF3
      rw [hre] at heq
      cases rb with
      | false =>
        simp only at heq
        obtain ⟨rfl, rfl⟩ := Prod.mk.inj heq.symm
        refine exCommon_abortTerm st _ 11 (by omega)
          (Δ1 ++ [Event.solveEvt true] ++ [Event.resEvt false])
          (by rw [t3, t2, t1]; simp [List.append_assoc]) ?_
          (by rw [x3, x2, x1]) (by rw [y3, y2, y1]) (by rw [r3, r2, r1]) ?_
        · intro e he
          rcases List.mem_append.mp he with hm2 | hm2
          · rcases List.mem_append.mp hm2 with hm3 | hm3
            · exact n1 e hm3
            · obtain rfl := List.mem_singleton.mp hm3
              exact ⟨rfl, rfl⟩
          · obtain rfl := List.mem_singleton.mp hm2
            exact ⟨rfl, rfl⟩
        · exact fun k2 i c v hv =>
            Or.inl (by rw [← c1 k2 i c, ← c2 k2 i c, ← c3 k2 i c]; exact hv)
      | true =>
        simp only at heq
        obtain ⟨fb, st4, hfw⟩ : ∃ b s, doFw h st3 = (b, s) := ⟨_, _, rfl⟩
        have hF4 : st4.trace = st3.trace ++ [Event.fwEvt fb] ∧
            st4.curX = st3.curX ∧ st4.curY = st3.curY ∧ st4.rect = st3.rect ∧
            (∀ k2 i c, st4.cells k2 i c = st3.cells k2 i c) := by
          rw [show doFw h st3 = (h.fieldWin st3.nFw,
              { st3 with nFw := st3.nFw + 1,
                         trace := st3.trace ++ [Event.fwEvt (h.fieldWin st3.nFw)] })
            from rfl] at hfw
          obtain ⟨hb, hst⟩ := Prod.mk.inj hfw
          subst hst
          exact ⟨by rw [hb], rfl, rfl, rfl, fun _ _ _ => rfl⟩
        obtain ⟨t4, x4, y4, r4, c4⟩ := hF4
        rw [hfw] at heq
        cases fb with
        | false =>
          simp only at heq
          obtain ⟨rfl, rfl⟩ := Prod.mk.inj heq.symm
          refine exCommon_abortTerm st _ 12 (by omega)
            (Δ1 ++ [Event.solveEvt true] ++ [Event.resEvt true] ++ [Event.fwEvt false])
            (by rw [t4, t3, t2, t1]; simp [List.append_assoc]) ?_
            (by rw [x4, x3, x2, x1]) (by rw [y4, y3, y2, y1])
            (by rw [r4, r3, r2, r1]) ?_
          · intro e he
            rcases List.mem_append.mp he with hm2 | hm2
            · rcases List.mem_append.mp hm2 with hm3 | hm3
              · rcases List.mem_append.mp hm3 with hm4 | hm4
                · exact n1 e hm4
                · obtain rfl := List.mem_singleton.mp hm4
                  exact ⟨rfl, rfl⟩
              · obtain rfl := List.mem_singleton.mp hm3
                exact ⟨rfl, rfl⟩
            · obtain rfl := List.mem_singleton.mp hm2
              exact ⟨rfl, rfl⟩
          · exact fun k2 i c v hv =>
              Or.inl (by rw [← c1 k2 i c, ← c2 k2 i c, ← c3 k2 i c, ← c4 k2 i c]; exact hv)
        | true =>
          simp only at heq
          obtain ⟨ir, st5, hint⟩ : ∃ r s,
              integralsLoop h key idx inp.integrals st4 = (r, s) := ⟨_, _, rfl⟩
          obtain ⟨ΔI, g1, g2, g3, g4, g5, g6, g7⟩ :=
            integralsLoop_facts h key idx inp.integrals st4 ir st5 hint
          have htrAll : st5.trace = st.trace ++
              (Δ1 ++ [Event.solveEvt true] ++ [Event.resEvt true] ++
                [Event.fwEvt true] ++ ΔI) := by
            rw [g1, t4, t3, t2, t1]; simp [List.append_assoc]
          have hnAll : ∀ e ∈ Δ1 ++ [Event.solveEvt true] ++ [Event.resEvt true] ++
              [Event.fwEvt true] ++ ΔI, chkNeutral e = true ∧ isPoll e = false := by
            intro e he
            rcases List.mem_append.mp he with hm2 | hm2
            · rcases List.mem_append.mp hm2 with hm3 | hm3
              · rcases List.mem_append.mp hm3 with hm4 | hm4
                · rcases List.mem_append.mp hm4 with hm5 | hm5
                  · exact n1 e hm5
                  · obtain rfl := List.mem_singleton.mp hm5
                    exact ⟨rfl, rfl⟩
                · obtain rfl := List.mem_singleton.mp hm4
                  exact ⟨rfl, rfl⟩
              · obtain rfl := List.mem_singleton.mp hm3
                exact ⟨rfl, rfl⟩
            · exact g2 e hm2
          have hxAll : st5.curX = st.curX := by rw [g3, x4, x3, x2, x1]
          have hyAll : st5.curY = st.curY := by rw [g4, y4, y3, y2, y1]
          have hrAll : st5.rect = st.rect := by rw [g5, r4, r3, r2, r1]
          have hcmAll : CellsMono st st5
              (Δ1 ++ [Event.solveEvt true] ++ [Event.resEvt true] ++
                [Event.fwEvt true] ++ ΔI) := by
            intro k2 i c v hv
            rcases g6 k2 i c v hv with hold | hmem
            · exact Or.inl (by rw [← c1 k2 i c, ← c2 k2 i c, ← c3 k2 i c, ← c4 k2 i c]; exact hold)
            · exact Or.inr (by simp [hmem])
          rw [hint] at heq
          cases ir with
          | some code =>
            simp only at heq
            obtain ⟨rfl, rfl⟩ := Prod.mk.inj heq.symm
            have hco : code ≠ 99 := by
              rcases g7 with h7 | h7
              · exact absurd h7 (by simp)
              · injection h7 with h7e
                omega
            exact exCommon_abortTerm st _ code hco _ htrAll hnAll hxAll hyAll hrAll
              hcmAll
          | none =>
            simp only at heq
            obtain ⟨Δt, hExT, hChkT⟩ := hk st5 ex st' heq
            exact ⟨_, exCommon_prepend htrAll hnAll hxAll hyAll hrAll hcmAll
              hExT hChkT⟩

/-- Helper: facts about any exit of the position loop. -/
theorem runPositions_facts (h : Host) (inp : Inputs) (idx : ℕ) :
    ∀ (ps : List (ℚ × ℚ)) (st : St) (ex : CaseExit) (st' : St),
    runPositions h inp idx ps st = (ex, st') →
    ∃ Δ, ExCommon st st' ex Δ ∧ ChkSeg st st' Δ := by
  intro ps
  induction ps with
  | nil =>
    intro st ex st' heq
    simp only [runPositions] at heq
    obtain ⟨rfl, rfl⟩ := Prod.mk.inj heq.symm
    exact ⟨[], exCommon_nil st' CaseExit.done (by simp)
      (by intro c hc; exact absurd hc (by simp))⟩
  | cons p rest ih =>
    intro st ex st' heq
    rw [runPositions_cons] at heq
    have hpoll : doPoll h { st with trace := st.trace ++ [Event.posStart p] } =
        (h.cancel st.nCancel,
         { st with nCancel := st.nCancel + 1,
                   trace := (st.trace ++ [Event.posStart p]) ++
                     [Event.poll (h.cancel st.nCancel)] }) := rfl
    rw [hpoll] at heq
    cases hc : h.cancel st.nCancel with
    | true =>
      rw [hc] at heq
      simp only at heq
      obtain ⟨rfl, rfl⟩ := Prod.mk.inj heq.symm
      exact ⟨_, exCommon_cancelTerm st _ p (by simp) rfl rfl rfl (fun _ _ _ => rfl)⟩
    | false =>
      rw [hc] at heq
      simp only at heq
      rcases move_by_xy_cases h
          { st with nCancel := st.nCancel + 1,
                    trace := (st.trace ++ [Event.posStart p]) ++ [Event.poll false] }
          (p.1 - st.curX) (p.2 - st.curY) with
        ⟨hc1, hc2, hmv⟩ | ⟨hns, hok, hmv⟩ | ⟨hns, hok, hmv⟩
      · rw [hmv] at heq
        simp only at heq
        obtain ⟨Δt, hExT, hChkT⟩ := afterMove_facts h inp _ p idx ih _ ex st' heq
        refine ⟨_, exCommon_headNoop st _ st' ex p Δt ?_ ?_ ?_ ?_ ?_ hExT hChkT⟩
        · simp
        · rfl
        · rfl
        · rfl
        · exact fun _ _ _ => rfl
      · rw [hmv] at heq
        simp only at heq
        obtain ⟨Δt, hExT, hChkT⟩ := afterMove_facts h inp _ p idx ih _ ex st' heq
        refine ⟨_, exCommon_headMove st _ st' ex p (p.1 - st.curX) (p.2 - st.curY) Δt
          (by ring) (by ring) ?_ ?_ ?_ ?_ ?_ hExT hChkT⟩
        · simp
        · rfl
        · rfl
        · rfl
        · exact fun _ _ _ => rfl
      · rw [hmv] at heq
        simp only at heq
        obtain ⟨rfl, rfl⟩ := Prod.mk.inj heq.symm
        exact ⟨_, exCommon_moveFail st _ p (p.1 - st.curX) (p.2 - st.curY)
          (by ring) (by ring) (by simp) rfl rfl rfl (fun _ _ _ => rfl)⟩

/-- Helper: facts about any exit of the per-case `try` body. -/
theorem caseBody_facts (h : Host) (inp : Inputs) (idx : ℕ) (p0 : ℚ × ℚ)
    (st : St) (ex : CaseExit) (st' : St)
    (heq : caseBody h inp idx p0 st = (ex, st')) :
    ∃ Δ, ExCommon st st' ex Δ ∧ ChkSegNone st st' Δ := by
  have hdead : (meshOnceEff inp && inp.mesh) = false := by
    cases hm : inp.mesh <;> simp [meshOnceEff, hm]
  unfold caseBody at heq
  rw [hdead] at heq
  simp only [Bool.false_eq_true, if_false] at heq
  rcases move_by_xy_cases h st (p0.1 - st.curX) (p0.2 - st.curY) with
    ⟨hc1, hc2, hmv⟩ | ⟨hns, hok, hmv⟩ | ⟨hns, hok, hmv⟩
  · rw [hmv] at heq
    simp only at heq
    obtain ⟨Δ, hEx, hChk⟩ := runPositions_facts h inp idx inp.positions st ex st' heq
    exact ⟨Δ, hEx, fun base s hs _ => hChk base s hs⟩
  · rw [hmv] at heq
    simp only at heq
    obtain ⟨Δ, hEx, hChk⟩ := runPositions_facts h inp idx inp.positions _ ex st' heq
    obtain ⟨e1, e2, e3, e4, e5, e6⟩ := hEx
    refine ⟨Event.moveEvt (p0.1 - st.curX) (p0.2 - st.curY) true
        (st.curX + (p0.1 - st.curX)) (st.curY + (p0.2 - st.curY))
        (translateRect st.rect (p0.1 - st.curX) (p0.2 - st.curY)) :: Δ, ?_, ?_⟩
    · refine ⟨by rw [e1]; simp, by rw [← e2]; simp, e3, ?_, ?_, ?_⟩
      · intro hcan
        obtain ⟨Δ₀, q, hΔ, hnp⟩ := e4 hcan
        refine ⟨Event.moveEvt (p0.1 - st.curX) (p0.2 - st.curY) true
            (st.curX + (p0.1 - st.curX)) (st.curY + (p0.2 - st.curY))
            (translateRect st.rect (p0.1 - st.curX) (p0.2 - st.curY)) :: Δ₀, q,
          by rw [hΔ]; simp, ?_⟩
        intro hmem
        rcases List.mem_cons.mp hmem with h1 | h1
        · exact absurd h1 (by simp)
        · exact hnp h1
      · intro k i c v hv
        rcases e5 k i c v hv with hold | hmem
        · exact Or.inl hold
        · exact Or.inr (by simp [hmem])
      · intro prev
        rw [pollsFrom_cons_nonpoll prev (Event.moveEvt (p0.1 - st.curX)
          (p0.2 - st.curY) true (st.curX + (p0.1 - st.curX))
          (st.curY + (p0.2 - st.curY))
          (translateRect st.rect (p0.1 - st.curX) (p0.2 - st.curY))) _ rfl]
        exact e6 _
    · intro base s hs hpend
      obtain ⟨hs1, hs2⟩ := hs
      have hstep : chkStep base s
          (Event.moveEvt (p0.1 - st.curX) (p0.2 - st.curY) true
            (st.curX + (p0.1 - st.curX)) (st.curY + (p0.2 - st.curY))
            (translateRect st.rect (p0.1 - st.curX) (p0.2 - st.curY))) =
          some ⟨(st.curX + (p0.1 - st.curX), st.curY + (p0.2 - st.curY)), none⟩ := by
        simp [chkStep, hpend, hs1, hs2, translateRect_trans]
      have hrc : translateRect st.rect (p0.1 - st.curX) (p0.2 - st.curY) =
          translateRect base (st.curX + (p0.1 - st.curX))
            (st.curY + (p0.2 - st.curY)) := by
        rw [hs2, translateRect_trans]
      obtain ⟨s', hrun, hinv⟩ := hChk base
        ⟨(st.curX + (p0.1 - st.curX), st.curY + (p0.2 - st.curY)), none⟩
        ⟨rfl, hrc⟩
      refine ⟨s', ?_, hinv⟩
      show (match chkStep base s
          (Event.moveEvt (p0.1 - st.curX) (p0.2 - st.curY) true
            (st.curX + (p0.1 - st.curX)) (st.curY + (p0.2 - st.curY))
            (translateRect st.rect (p0.1 - st.curX) (p0.2 - st.curY))) with
        | none => none
        | some s2 => chkRun base Δ s2) = some s'
      rw [hstep]
      exact hrun
  · rw [hmv] at heq
    simp only at heq
    obtain ⟨rfl, rfl⟩ := Prod.mk.inj heq.symm
    refine ⟨[Event.moveEvt (p0.1 - st.curX) (p0.2 - st.curY) false
        st.curX st.curY st.rect], ?_, ?_⟩
    · refine ⟨by simp, by simp, ?_, by simp, fun k i c v hv => Or.inl hv, ?_⟩
      · rintro code hcode
        injection hcode with h2
        omega
      · intro prev
        rw [pollsFrom_cons_nonpoll prev (Event.moveEvt (p0.1 - st.curX)
          (p0.2 - st.curY) false st.curX st.curY st.rect) _ rfl]
        rfl
    · intro base s hs hpend
      obtain ⟨hs1, hs2⟩ := hs
      have hstep : chkStep base s
          (Event.moveEvt (p0.1 - st.curX) (p0.2 - st.curY) false
            st.curX st.curY st.rect) = some ⟨s.cum, none⟩ := by
        simp [chkStep, hpend, hs1, hs2]
      refine ⟨⟨s.cum, none⟩, ?_,
        by show s.cum = _; exact hs1, by show _ = _; exact hs2⟩
      show (match chkStep base s
          (Event.moveEvt (p0.1 - st.curX) (p0.2 - st.curY) false
            st.curX st.curY st.rect) with
        | none => none
        | some s2 => chkRun base [] s2) = some (⟨s.cum, none⟩ : ChkSt)
      rw [hstep]
      rfl

/-- Helper: the field-application fold only appends field events. -/
theorem applyFields_facts (inp : Inputs) (vals : List (String × ℚ)) : ∀ (u : St),
    ∃ Δf, (applyFields inp vals u).trace = u.trace ++ Δf ∧
      (∀ e ∈ Δf, chkNeutral e = true ∧ isPoll e = false) ∧
      (applyFields inp vals u).curX = u.curX ∧
      (applyFields inp vals u).curY = u.curY ∧
      (applyFields inp vals u).rect = u.rect ∧
      (∀ k i c, (applyFields inp vals u).cells k i c = u.cells k i c) := by
  induction vals with
  | nil =>
    intro u
    exact ⟨[], by simp [applyFields], by simp, rfl, rfl, rfl, fun _ _ _ => rfl⟩
  | cons nv rest ih =>
    intro u
    have hfold : applyFields inp (nv :: rest) u = applyFields inp rest
        { u with trace := u.trace ++ [Event.applyField nv.1 inp.fieldName nv.2] } := rfl
    obtain ⟨Δf, t1, n1, x1, y1, r1, c1⟩ := ih
      { u with trace := u.trace ++ [Event.applyField nv.1 inp.fieldName nv.2] }
    refine ⟨Event.applyField nv.1 inp.fieldName nv.2 :: Δf, ?_, ?_, ?_, ?_, ?_, ?_⟩
    · rw [hfold, t1]
      simp
    · intro e he
      rcases List.mem_cons.mp he with rfl | h1
      · exact ⟨rfl, rfl⟩
      · exact n1 e h1
    · rw [hfold, x1]
    · rw [hfold, y1]
    · rw [hfold, r1]
    · intro k i c
      rw [hfold, c1]

/-- Helper: the finally-block appends only restoration work accepted by the
checker, and leaves the geometry within tolerance or a restore warning on the
trace. -/
theorem caseFinally_facts (h : Host) (inp : Inputs) (st : St) :
    ∃ Δ, (caseFinally h inp st).trace = st.trace ++ Δ ∧
      AllPost Δ ∧ (∀ e ∈ Δ, isPoll e = false) ∧
      ChkSeg st (caseFinally h inp st) Δ ∧
      (∀ k i c, (caseFinally h inp st).cells k i c = st.cells k i c) ∧
      ((|(caseFinally h inp st).curX| ≤ eps9 ∧ |(caseFinally h inp st).curY| ≤ eps9) ∨
        Event.warnRestore ∈ (caseFinally h inp st).trace) := by
  by_cases hfar : eps9 < |st.curX| ∨ eps9 < |st.curY|
  case neg =>
    have hcf : caseFinally h inp st = st := by
      unfold caseFinally
      rw [if_neg hfar]
    rw [hcf]
    push_neg at hfar
    exact ⟨[], by simp, by simp [AllPost], by simp, fun base s hs => ⟨s, rfl, hs⟩,
      fun _ _ _ => rfl, Or.inl hfar⟩
  case pos =>
    have hreal : ¬(|(-st.curX)| ≤ eps9 ∧ |(-st.curY)| ≤ eps9) := by
      rw [abs_neg, abs_neg]
      rcases hfar with hx | hy
      · exact fun hcon => absurd hcon.1 (not_le.mpr hx)
      · exact fun hcon => absurd hcon.2 (not_le.mpr hy)
    rcases move_by_xy_cases h { st with trace := st.trace ++ [Event.restoreStart] }
        (-st.curX) (-st.curY) with ⟨c1, c2, _⟩ | ⟨hns, hok, hmv⟩ | ⟨hns, hok, hmv⟩
    · exact absurd ⟨c1, c2⟩ hreal
    · cases hm : inp.mesh with
      | false =>
        have hcf : caseFinally h inp st =
            { st with nMove := st.nMove + 1,
                      rect := translateRect st.rect (-st.curX) (-st.curY),
                      curX := st.curX + -st.curX, curY := st.curY + -st.curY,
                      trace := (st.trace ++ [Event.restoreStart]) ++
                        [Event.moveEvt (-st.curX) (-st.curY) true (st.curX + -st.curX)
                          (st.curY + -st.curY)
                          (translateRect st.rect (-st.curX) (-st.curY))] } := by
          unfold caseFinally
          rw [if_pos hfar, hmv, hm]
          rfl
        rw [hcf]
        refine ⟨[Event.restoreStart,
          Event.moveEvt (-st.curX) (-st.curY) true (st.curX + -st.curX)
            (st.curY + -st.curY) (translateRect st.rect (-st.curX) (-st.curY))],
          by simp, ?_, ?_, ?_, fun _ _ _ => rfl, Or.inl ⟨by norm_num [eps9], by norm_num [eps9]⟩⟩
        · intro e he
          rcases List.mem_cons.mp he with rfl | h1
          · rfl
          · obtain rfl := List.mem_singleton.mp h1
            rfl
        · intro e he
          rcases List.mem_cons.mp he with rfl | h1
          · rfl
          · obtain rfl := List.mem_singleton.mp h1
            rfl
        · intro base s hs
          obtain ⟨hs1, hs2⟩ := hs
          have hstep : chkStep base { s with pending := none }
              (Event.moveEvt (-st.curX) (-st.curY) true (st.curX + -st.curX)
                (st.curY + -st.curY) (translateRect st.rect (-st.curX) (-st.curY))) =
              some ⟨(st.curX + -st.curX, st.curY + -st.curY), none⟩ := by
            simp [chkStep, hs1, hs2, translateRect_trans]
          have hrc : translateRect st.rect (-st.curX) (-st.curY) =
              translateRect base (st.curX + -st.curX) (st.curY + -st.curY) := by
            rw [hs2, translateRect_trans]
          refine ⟨⟨(st.curX + -st.curX, st.curY + -st.curY), none⟩, ?_, rfl, hrc⟩
          show (match chkStep base { s with pending := none }
              (Event.moveEvt (-st.curX) (-st.curY) true (st.curX + -st.curX)
                (st.curY + -st.curY)
                (translateRect st.rect (-st.curX) (-st.curY))) with
            | none => none
            | some s2 => chkRun base [] s2) =
            some (⟨(st.curX + -st.curX, st.curY + -st.curY), none⟩ : ChkSt)
          rw [hstep]
          rfl
      | true =>
        cases hmb : h.mesh st.nMesh with
        | true =>
          have hcf : caseFinally h inp st =
              { st with nMove := st.nMove + 1, nMesh := st.nMesh + 1,
                        rect := translateRect st.rect (-st.curX) (-st.curY),
                        curX := st.curX + -st.curX, curY := st.curY + -st.curY,
                        trace := ((st.trace ++ [Event.restoreStart]) ++
                          [Event.moveEvt (-st.curX) (-st.curY) true (st.curX + -st.curX)
                            (st.curY + -st.curY)
                            (translateRect st.rect (-st.curX) (-st.curY))]) ++
                          [Event.meshEvt true] } := by
            have hdm : doMesh h
                { st with nMove := st.nMove + 1,
                          rect := translateRect st.rect (-st.curX) (-st.curY),
                          curX := 0, curY := 0,
                          trace := st.trace ++
                            [Event.restoreStart,
                              Event.moveEvt (-st.curX) (-st.curY) true 0 0
                                (translateRect st.rect (-st.curX) (-st.curY))] } =
                (h.mesh st.nMesh,
                 { st with nMove := st.nMove + 1, nMesh := st.nMesh + 1,
                           rect := translateRect st.rect (-st.curX) (-st.curY),
                           curX := 0, curY := 0,
                           trace := (st.trace ++
                             [Event.restoreStart,
                               Event.moveEvt (-st.curX) (-st.curY) true 0 0
                                 (translateRect st.rect (-st.curX) (-st.curY))]) ++
                             [Event.meshEvt (h.mesh st.nMesh)] }) := rfl
            unfold caseFinally
            rw [if_pos hfar, hmv]
            simp only [hm]
            simp only [if_true]
            simp
            rw [hdm, hmb]
            simp
          rw [hcf]
          refine ⟨[Event.restoreStart,
            Event.moveEvt (-st.curX) (-st.curY) true (st.curX + -st.curX)
              (st.curY + -st.curY) (translateRect st.rect (-st.curX) (-st.curY)),
            Event.meshEvt true],
            by simp, ?_, ?_, ?_, fun _ _ _ => rfl, Or.inl ⟨by norm_num [eps9], by norm_num [eps9]⟩⟩
          · intro e he
            rcases List.mem_cons.mp he with rfl | h1
            · rfl
            · rcases List.mem_cons.mp h1 with rfl | h2
              · rfl
              · obtain rfl := List.mem_singleton.mp h2
                rfl
          · intro e he
            rcases List.mem_cons.mp he with rfl | h1
            · rfl
            · rcases List.mem_cons.mp h1 with rfl | h2
              · rfl
              · obtain rfl := List.mem_singleton.mp h2
                rfl
          · intro base s hs
            obtain ⟨hs1, hs2⟩ := hs
            have hstep : chkStep base { s with pending := none }
                (Event.moveEvt (-st.curX) (-st.curY) true (st.curX + -st.curX)
                  (st.curY + -st.curY)
                  (translateRect st.rect (-st.curX) (-st.curY))) =
                some ⟨(st.curX + -st.curX, st.curY + -st.curY), none⟩ := by
              simp [chkStep, hs1, hs2, translateRect_trans]
            have hrc : translateRect st.rect (-st.curX) (-st.curY) =
                translateRect base (st.curX + -st.curX) (st.curY + -st.curY) := by
              rw [hs2, translateRect_trans]
            refine ⟨⟨(st.curX + -st.curX, st.curY + -st.curY), none⟩, ?_, rfl, hrc⟩
            show (match chkStep base { s with pending := none }
                (Event.moveEvt (-st.curX) (-st.curY) true (st.curX + -st.curX)
                  (st.curY + -st.curY)
                  (translateRect st.rect (-st.curX) (-st.curY))) with
              | none => none
              | some s2 => chkRun base [Event.meshEvt true] s2) =
              some (⟨(st.curX + -st.curX, st.curY + -st.curY), none⟩ : ChkSt)
            rw [hstep]
            rfl
        | false =>
          have hcf : caseFinally h inp st =
              { st with nMove := st.nMove + 1, nMesh := st.nMesh + 1,
                        rect := translateRect st.rect (-st.curX) (-st.curY),
                        curX := st.curX + -st.curX, curY := st.curY + -st.curY,
                        trace := (((st.trace ++ [Event.restoreStart]) ++
                          [Event.moveEvt (-st.curX) (-st.curY) true (st.curX + -st.curX)
                            (st.curY + -st.curY)
                            (translateRect st.rect (-st.curX) (-st.curY))]) ++
                          [Event.meshEvt false]) ++ [Event.warnMeshRestore] } := by
            have hdm : doMesh h
                { st with nMove := st.nMove + 1,
                          rect := translateRect st.rect (-st.curX) (-st.curY),
                          curX := 0, curY := 0,
                          trace := st.trace ++
                            [Event.restoreStart,
                              Event.moveEvt (-st.curX) (-st.curY) true 0 0
                                (translateRect st.rect (-st.curX) (-st.curY))] } =
                (h.mesh st.nMesh,
                 { st with nMove := st.nMove + 1, nMesh := st.nMesh + 1,
                           rect := translateRect st.rect (-st.curX) (-st.curY),
                           curX := 0, curY := 0,
                           trace := (st.trace ++
                             [Event.restoreStart,
                               Event.moveEvt (-st.curX) (-st.curY) true 0 0
                                 (translateRect st.rect (-st.curX) (-st.curY))]) ++
                             [Event.meshEvt (h.mesh st.nMesh)] }) := rfl
            unfold caseFinally
            rw [if_pos hfar, hmv]
            simp only [hm]
            simp only [if_true]
            simp
            rw [hdm, hmb]
            simp
          rw [hcf]
          refine ⟨[Event.restoreStart,
            Event.moveEvt (-st.curX) (-st.curY) true (st.curX + -st.curX)
              (st.curY + -st.curY) (translateRect st.rect (-st.curX) (-st.curY)),
            Event.meshEvt false, Event.warnMeshRestore],
            by simp, ?_, ?_, ?_, fun _ _ _ => rfl, Or.inl ⟨by norm_num [eps9], by norm_num [eps9]⟩⟩
          · intro e he
            rcases List.mem_cons.mp he with rfl | h1
            · rfl
            · rcases List.mem_cons.mp h1 with rfl | h2
              · rfl
              · rcases List.mem_cons.mp h2 with rfl | h3
                · rfl
                · obtain rfl := List.mem_singleton.mp h3
                  rfl
          · intro e he
            rcases List.mem_cons.mp he with rfl | h1
            · rfl
            · rcases List.mem_cons.mp h1 with rfl | h2
              · rfl
              · rcases List.mem_cons.mp h2 with rfl | h3
                · rfl
                · obtain rfl := List.mem_singleton.mp h3
                  rfl
          · intro base s hs
            obtain ⟨hs1, hs2⟩ := hs
            have hstep : chkStep base { s with pending := none }
                (Event.moveEvt (-st.curX) (-st.curY) true (st.curX + -st.curX)
                  (st.curY + -st.curY)
                  (translateRect st.rect (-st.curX) (-st.curY))) =
                some ⟨(st.curX + -st.curX, st.curY + -st.curY), none⟩ := by
              simp [chkStep, hs1, hs2, translateRect_trans]
            have hrc : translateRect st.rect (-st.curX) (-st.curY) =
                translateRect base (st.curX + -st.curX) (st.curY + -st.curY) := by
              rw [hs2, translateRect_trans]
            refine ⟨⟨(st.curX + -st.curX, st.curY + -st.curY), none⟩, ?_, rfl, hrc⟩
            show (match chkStep base { s with pending := none }
                (Event.moveEvt (-st.curX) (-st.curY) true (st.curX + -st.curX)
                  (st.curY + -st.curY)
                  (translateRect st.rect (-st.curX) (-st.curY))) with
              | none => none
              | some s2 =>
                chkRun base [Event.meshEvt false, Event.warnMeshRestore] s2) =
              some (⟨(st.curX + -st.curX, st.curY + -st.curY), none⟩ : ChkSt)
            rw [hstep]
            rfl
    · have hcf : caseFinally h inp st =
          { st with nMove := st.nMove + 1,
                    trace := ((st.trace ++ [Event.restoreStart]) ++
                      [Event.moveEvt (-st.curX) (-st.curY) false st.curX st.curY
                        st.rect]) ++ [Event.warnRestore] } := by
        unfold caseFinally
        rw [if_pos hfar, hmv]
      rw [hcf]
      refine ⟨[Event.restoreStart,
        Event.moveEvt (-st.curX) (-st.curY) false st.curX st.curY st.rect,
        Event.warnRestore], by simp, ?_, ?_, ?_, fun _ _ _ => rfl,
        Or.inr (by simp)⟩
      · intro e he
        rcases List.mem_cons.mp he with rfl | h1
        · rfl
        · rcases List.mem_cons.mp h1 with rfl | h2
          · rfl
          · obtain rfl := List.mem_singleton.mp h2
            rfl
      · intro e he
        rcases List.mem_cons.mp he with rfl | h1
        · rfl
        · rcases List.mem_cons.mp h1 with rfl | h2
          · rfl
          · obtain rfl := List.mem_singleton.mp h2
            rfl
      · intro base s hs
        obtain ⟨hs1, hs2⟩ := hs
        have hstep : chkStep base { s with pending := none }
            (Event.moveEvt (-st.curX) (-st.curY) false st.curX st.curY st.rect) =
            some ⟨s.cum, none⟩ := by
          simp [chkStep, hs1, hs2]
        refine ⟨⟨s.cum, none⟩, ?_,
          by show s.cum = _; exact hs1, by show _ = _; exact hs2⟩
        show (match chkStep base { s with pending := none }
            (Event.moveEvt (-st.curX) (-st.curY) false st.curX st.curY st.rect) with
          | none => none
          | some s2 => chkRun base [Event.warnRestore] s2) =
          some (⟨s.cum, none⟩ : ChkSt)
        rw [hstep]
        rfl

/-- Helper: facts about the case loop — the trace checker accepts every run,
cancellation is observed exactly on the 99 return with only restoration work
after it, and the geometry ends within tolerance or warned. -/
theorem runCases_facts (h : Host) (inp : Inputs) (base : Rect) (p0 : ℚ × ℚ) :
    ∀ (cs : List (List (String × ℚ))) (idx : ℕ) (st : St) (res : Option ℕ) (st' : St),
    runCases h inp base p0 idx cs st = (res, st') →
    ∃ Δ, CaseFacts base st st' res Δ := by
  intro cs
  induction cs with
  | nil =>
    intro idx st res st' heq
    simp only [runCases] at heq
    obtain ⟨rfl, rfl⟩ := Prod.mk.inj heq.symm
    exact ⟨[], by simp, fun s => ⟨s, rfl⟩, by simp, by simp,
      fun k i c v hv => Or.inl hv, fun prev => rfl, fun g => g⟩
  | cons vals rest ih =>
    intro idx st res st' heq
    simp only [runCases] at heq
    have hpoll : doPoll h { st with trace := st.trace ++ [Event.caseStart idx] } =
        (h.cancel st.nCancel,
         { st with nCancel := st.nCancel + 1,
                   trace := (st.trace ++ [Event.caseStart idx]) ++
                     [Event.poll (h.cancel st.nCancel)] }) := rfl
    rw [hpoll] at heq
    cases hc : h.cancel st.nCancel with
    | true =>
      rw [hc] at heq
      simp only at heq
      obtain ⟨rfl, rfl⟩ := Prod.mk.inj heq.symm
      refine ⟨[Event.caseStart idx, Event.poll true], by simp, ?_, by simp, ?_,
        fun k i c v hv => Or.inl hv, ?_, ?_⟩
      · intro s
        exact ⟨⟨(0, 0), none⟩, rfl⟩
      · intro _
        exact ⟨[Event.caseStart idx], [], rfl, by simp [NoPT], by simp [AllPost]⟩
      · intro prev
        rw [pollsFrom_cons_nonpoll prev (Event.caseStart idx) _ rfl,
          pollsFrom_poll_after_case]
        rfl
      · intro g
        rcases g with ⟨g1, g2⟩ | g3
        · exact Or.inl ⟨g1, g2⟩
        · exact Or.inr (by simp [g3])
    | false =>
      rw [hc] at heq
      simp only at heq
      obtain ⟨ex, st1, hbody⟩ : ∃ e s, caseBody h inp idx p0
          (prepCase inp base vals
            { st with nCancel := st.nCancel + 1,
                      trace := st.trace ++ [Event.caseStart idx] ++ [Event.poll false] }) =
          (e, s) := ⟨_, _, rfl⟩
      rw [hbody] at heq
      obtain ⟨Δf, tF, nF, xF, yF, rF, cF⟩ := applyFields_facts inp vals
        { st with nCancel := st.nCancel + 1,
                  trace := st.trace ++ [Event.caseStart idx] ++ [Event.poll false] }
      have tP : (prepCase inp base vals
          { st with nCancel := st.nCancel + 1,
                    trace := st.trace ++ [Event.caseStart idx] ++ [Event.poll false] }).trace =
          (st.trace ++ [Event.caseStart idx] ++ [Event.poll false]) ++ Δf := tF
      have cP : ∀ k i c, (prepCase inp base vals
          { st with nCancel := st.nCancel + 1,
                    trace := st.trace ++ [Event.caseStart idx] ++ [Event.poll false] }).cells
          k i c = st.cells k i c := fun k i c => cF k i c
      obtain ⟨Δb, hExB, hChkB⟩ := caseBody_facts h inp idx p0 _ ex st1 hbody
      obtain ⟨e1, e2, e3, e4, e5, e6⟩ := hExB
      obtain ⟨Δfin, tFin, apFin, npFin, chkFin, cFin, geoFin⟩ := caseFinally_facts h inp st1
      have hnoPTf : Event.poll true ∉ Δf := fun hm2 => by
        simpa [isPoll] using (nF _ hm2).2
      have hnoPTfin : Event.poll true ∉ Δfin := fun hm2 => by
        simpa [isPoll] using npFin _ hm2
      have htrace : (caseFinally h inp st1).trace =
          st.trace ++ ([Event.caseStart idx, Event.poll false] ++ Δf ++ Δb ++ Δfin) := by
        rw [tFin, e1, tP]
        simp [List.append_assoc]
      have hchkFull : ∀ s : ChkSt, ∃ s3,
          chkRun base ([Event.caseStart idx, Event.poll false] ++ Δf ++ Δb ++ Δfin) s =
            some s3 ∧ ChkInv base (caseFinally h inp st1) s3 := by
        intro s
        obtain ⟨s2, hrun2, hinv2⟩ := hChkB base ⟨(0, 0), none⟩
          ⟨rfl, (translateRect_zero base).symm⟩ rfl
        obtain ⟨s3, hrun3, hinv3⟩ := chkFin base s2 hinv2
        refine ⟨s3, ?_, hinv3⟩
        rw [show ([Event.caseStart idx, Event.poll false] ++ Δf ++ Δb ++ Δfin) =
            [Event.caseStart idx, Event.poll false] ++ (Δf ++ (Δb ++ Δfin))
          from by simp [List.append_assoc]]
        show chkRun base (Δf ++ (Δb ++ Δfin)) (⟨(0, 0), none⟩ : ChkSt) = some s3
        rw [chkRun_append, chkRun_neutral base Δf (fun e he => (nF e he).1),
          Option.some_bind, chkRun_append, hrun2, Option.some_bind]
        exact hrun3
      have hcells : CellsMono st (caseFinally h inp st1)
          ([Event.caseStart idx, Event.poll false] ++ Δf ++ Δb ++ Δfin) := by
        intro k i c v hv
        rw [cFin k i c] at hv
        rcases e5 k i c v hv with hold | hmem
        · exact Or.inl (by rw [← cP k i c]; exact hold)
        · exact Or.inr (by simp [hmem])
      have hbp : BoundaryPolls
          ([Event.caseStart idx, Event.poll false] ++ Δf ++ Δb ++ Δfin) := by
        intro prev
        rw [show ([Event.caseStart idx, Event.poll false] ++ Δf ++ Δb ++ Δfin) =
            Event.caseStart idx :: Event.poll false :: (Δf ++ Δb ++ Δfin)
          from by simp [List.append_assoc]]
        rw [pollsFrom_cons_nonpoll prev (Event.caseStart idx) _ rfl,
          pollsFrom_poll_after_case, pollsFrom_append, pollsFrom_append,
          pollsFrom_nopoll Δf (fun e he => (nF e he).2),
          pollsFrom_nopoll Δfin npFin, e6 _]
        rfl
      cases ex with
      | abort code =>
        simp only at heq
        obtain ⟨rfl, rfl⟩ := Prod.mk.inj heq.symm
        have hc99 : code ≠ 99 := e3 code rfl
        have hnb : Event.poll true ∉ Δb := fun hm2 => by simpa using e2.mp hm2
        refine ⟨[Event.caseStart idx, Event.poll false] ++ Δf ++ Δb ++ Δfin,
          htrace, ?_, ?_, ?_, hcells, hbp, fun _ => geoFin⟩
        · intro s
          obtain ⟨s3, h3, _⟩ := hchkFull s
          exact ⟨s3, h3⟩
        · simp [List.mem_append, hnoPTf, hnb, hnoPTfin, hc99]
        · intro h99
          exact absurd (Option.some_inj.mp h99) hc99
      | cancelledBrk =>
        simp only at heq
        obtain ⟨rfl, rfl⟩ := Prod.mk.inj heq.symm
        obtain ⟨Δ₀, q, hΔb, hnp0⟩ := e4 rfl
        have hmemb : Event.poll true ∈ Δb := e2.mpr rfl
        refine ⟨[Event.caseStart idx, Event.poll false] ++ Δf ++ Δb ++ Δfin,
          htrace, ?_, ?_, ?_, hcells, hbp, fun _ => geoFin⟩
        · intro s
          obtain ⟨s3, h3, _⟩ := hchkFull s
          exact ⟨s3, h3⟩
        · simp [List.mem_append, hmemb]
        · intro _
          refine ⟨[Event.caseStart idx, Event.poll false] ++ Δf ++ Δ₀ ++
            [Event.posStart q], Δfin, by rw [hΔb]; simp [List.append_assoc], ?_, apFin⟩
          intro hmem
          rcases List.mem_append.mp hmem with hm2 | hm2
          · rcases List.mem_append.mp hm2 with hm3 | hm3
            · rcases List.mem_append.mp hm3 with hm4 | hm4
              · simp at hm4
              · exact hnoPTf hm4
            · exact hnp0 hm3
          · simp at hm2
      | done =>
        simp only at heq
        obtain ⟨Δrec, f1, f2, f3, f4, f5, f6, f7⟩ := ih (idx + 1) _ res st' heq
        have hnb : Event.poll true ∉ Δb := fun hm2 => by simpa using e2.mp hm2
        refine ⟨([Event.caseStart idx, Event.poll false] ++ Δf ++ Δb ++ Δfin) ++ Δrec,
          ?_, ?_, ?_, ?_, ?_, ?_, fun _ => f7 geoFin⟩
        · rw [f1, htrace]
          simp [List.append_assoc]
        · intro s
          obtain ⟨s3, h3, _⟩ := hchkFull s
          obtain ⟨s4, h4⟩ := f2 s3
          exact ⟨s4, by rw [chkRun_append, h3, Option.some_bind]; exact h4⟩
        · rw [← f3]
          simp [List.mem_append, hnoPTf, hnb, hnoPTfin]
        · intro h99
          obtain ⟨Δ₀, Δ₂, hsplit, hnp0, hap2⟩ := f4 h99
          refine ⟨([Event.caseStart idx, Event.poll false] ++ Δf ++ Δb ++ Δfin) ++ Δ₀,
            Δ₂, by rw [hsplit]; simp [List.append_assoc], ?_, hap2⟩
          intro hmem
          rcases List.mem_append.mp hmem with hm2 | hm2
          · rcases List.mem_append.mp hm2 with hm3 | hm3
            · rcases List.mem_append.mp hm3 with hm4 | hm4
              · rcases List.mem_append.mp hm4 with hm5 | hm5
                · simp at hm5
                · exact hnoPTf hm5
              · exact hnb hm4
            · exact hnoPTfin hm3
          · exact hnp0 hm2
        · intro k i c v hv
          rcases f5 k i c v hv with hold | hmem
          · rcases hcells k i c v hold with h1 | h1
            · exact Or.inl h1
            · exact Or.inr (List.mem_append_left Δrec h1)
          · exact Or.inr (List.mem_append_right _ hmem)
        · intro prev
          rw [pollsFrom_append, hbp prev, f6 _]
          rfl

/-- Helper: any run either fails validation (returning the untouched initial
state and a non-99 code) or reduces to the case loop over the computed
baseline, with the cancellation code tied to the loop result. -/
theorem run_batch_main (sh : SetupHost) (h : Host) (inp : Inputs)
    (code : ℕ) (st' : St) (heq : run_batch_force_plan sh h inp = (code, st')) :
    (st' = st0 ∧ code ≠ 99) ∨
    ∃ bs res Δ, collectBounds sh inp.moveLabels = Except.ok bs ∧
      (code = 99 ↔ res = some 99) ∧
      CaseFacts (unionBounds bs)
        { st0 with rect := unionBounds bs, seen := seenInit inp.integrals,
                   trace := [Event.sweepStart (unionBounds bs)] } st' res Δ := by
  have hcoll : ∀ (ls : List String) (c : ℕ),
      collectBounds sh ls = Except.error c → c = 6 ∨ c = 7 := by
    intro ls
    induction ls with
    | nil =>
      intro c hc
      simp [collectBounds] at hc
    | cons nm rest ih =>
      intro c hc
      unfold collectBounds at hc
      rcases hbr : sh.blockRect nm with _ | obr
      · rw [hbr] at hc
        simp only [Except.error.injEq] at hc
        omega
      · rcases obr with _ | rc
        · rw [hbr] at hc
          simp only [Except.error.injEq] at hc
          omega
        · rw [hbr] at hc
          simp only at hc
          rcases hrest : collectBounds sh rest with c2 | bs2
          · rw [hrest] at hc
            simp only [Except.map, Except.error.injEq] at hc
            exact hc ▸ ih c2 hrest
          · rw [hrest] at hc
            simp [Except.map] at hc
  unfold run_batch_force_plan at heq
  by_cases c3 : inp.moveLabels.isEmpty
  · rw [if_pos c3] at heq
    obtain ⟨rfl, rfl⟩ := Prod.mk.inj heq.symm
    exact Or.inl ⟨rfl, by omega⟩
  rw [if_neg c3] at heq
  by_cases c4 : inp.cases.isEmpty
  · rw [if_pos c4] at heq
    obtain ⟨rfl, rfl⟩ := Prod.mk.inj heq.symm
    exact Or.inl ⟨rfl, by omega⟩
  rw [if_neg c4] at heq
  by_cases c5 : inp.positions.isEmpty
  · rw [if_pos c5] at heq
    obtain ⟨rfl, rfl⟩ := Prod.mk.inj heq.symm
    exact Or.inl ⟨rfl, by omega⟩
  rw [if_neg c5] at heq
  by_cases c6 : inp.integrals.isEmpty
  · rw [if_pos c6] at heq
    obtain ⟨rfl, rfl⟩ := Prod.mk.inj heq.symm
    exact Or.inl ⟨rfl, by omega⟩
  rw [if_neg c6] at heq
  by_cases c1 : (!sh.problemOk) = true
  · rw [if_pos c1] at heq
    obtain ⟨rfl, rfl⟩ := Prod.mk.inj heq.symm
    exact Or.inl ⟨rfl, by omega⟩
  rw [if_neg c1] at heq
  by_cases c2 : (!sh.modelOk) = true
  · rw [if_pos c2] at heq
    obtain ⟨rfl, rfl⟩ := Prod.mk.inj heq.symm
    exact Or.inl ⟨rfl, by omega⟩
  rw [if_neg c2] at heq
  rcases hcb : collectBounds sh inp.moveLabels with c | bs
  · rw [hcb] at heq
    simp only at heq
    obtain ⟨rfl, rfl⟩ := Prod.mk.inj heq.symm
    rcases hcoll _ _ hcb with rfl | rfl
    · exact Or.inl ⟨rfl, by omega⟩
    · exact Or.inl ⟨rfl, by omega⟩
  · rw [hcb] at heq
    simp only at heq
    obtain ⟨res, stR, hrc⟩ : ∃ r s,
        runCases h inp (unionBounds bs) (inp.positions.headD (0, 0)) 1 inp.cases
          { st0 with rect := unionBounds bs, seen := seenInit inp.integrals,
                     trace := [Event.sweepStart (unionBounds bs)] } = (r, s) :=
      ⟨_, _, rfl⟩
    rw [hrc] at heq
    obtain ⟨Δ, hCF⟩ := runCases_facts h inp (unionBounds bs)
      (inp.positions.headD (0, 0)) inp.cases 1 _ res stR hrc
    cases res with
    | some c9 =>
      simp only at heq
      obtain ⟨rfl, rfl⟩ := Prod.mk.inj heq.symm
      exact Or.inr ⟨bs, some code, Δ, rfl, by simp, hCF⟩
    | none =>
      simp only at heq
      obtain ⟨rfl, rfl⟩ := Prod.mk.inj heq.symm
      exact Or.inr ⟨bs, none, Δ, rfl, by simp, hCF⟩

/-- C5: throughout any sweep, the trace of the run passes the
tracked-rectangle checker started at the computed baseline: every recorded
move is issued as the delta from the checker's cumulative position to the
armed position target, a successful move advances the cumulative sum by its
delta and records the baseline translated by exactly that sum, and a failed
move records both unchanged. -/
theorem C5_rect_invariant (sh : SetupHost) (h : Host) (inp : Inputs)
    (bs : List Rect) (hbs : collectBounds sh inp.moveLabels = Except.ok bs) :
    ∃ s', chkRun (unionBounds bs) (run_batch_force_plan sh h inp).2.trace
      ⟨(0, 0), none⟩ = some s' := by
  obtain hmain := run_batch_main sh h inp (run_batch_force_plan sh h inp).1
    (run_batch_force_plan sh h inp).2 rfl
  rcases hmain with ⟨hst, _⟩ | ⟨bs2, res, Δ, hbs2, hiff, f1, f2, f3, f4, f5, f6, f7⟩
  · rw [hst]
    exact ⟨⟨(0, 0), none⟩, rfl⟩
  · have hbseq : bs = bs2 := by
      rw [hbs] at hbs2
      exact Except.ok.inj hbs2
    subst hbseq
    obtain ⟨s1, hs1⟩ := f2 ⟨(0, 0), none⟩
    refine ⟨s1, ?_⟩
    rw [f1]
    show chkRun (unionBounds bs) Δ (⟨(0, 0), none⟩ : ChkSt) = some s1
    exact hs1

/-- C5 witness: the checker accepts the full two-case, three-position sweep
against the all-success host. -/
theorem C5_rect_invariant_witness :
    collectBounds setupW inpW.moveLabels = Except.ok [rectW] ∧
    ∃ s', chkRun (unionBounds [rectW])
      (run_batch_force_plan setupW hostW inpW).2.trace ⟨(0, 0), none⟩ = some s' :=
  ⟨rfl, C5_rect_invariant setupW hostW inpW [rectW] rfl⟩

/-- C6 (amended): cancellation polls happen only directly after case or
position boundary markers; the run returns the cancellation code 99 exactly
when a poll observes cancellation; everything after the first observed
cancellation is restoration work (no result cell is recorded after it); and
on a cancelled run the final cumulative displacement is within the no-op
tolerance of the baseline unless the restoring move failed, in which case a
restore warning is on the trace. -/
theorem C6_cancellation (sh : SetupHost) (h : Host) (inp : Inputs) :
    pollsAtBoundaries (run_batch_force_plan sh h inp).2.trace = true ∧
    ((Event.poll true ∈ (run_batch_force_plan sh h inp).2.trace) ↔
      (run_batch_force_plan sh h inp).1 = 99) ∧
    ((run_batch_force_plan sh h inp).1 = 99 →
      ∃ t₀ t₂, (run_batch_force_plan sh h inp).2.trace = t₀ ++ Event.poll true :: t₂ ∧
        NoPT t₀ ∧ AllPost t₂ ∧ ∀ k i c v, Event.recordEvt k i c v ∉ t₂) ∧
    ((run_batch_force_plan sh h inp).1 = 99 →
      (|(run_batch_force_plan sh h inp).2.curX| ≤ eps9 ∧
       |(run_batch_force_plan sh h inp).2.curY| ≤ eps9) ∨
      Event.warnRestore ∈ (run_batch_force_plan sh h inp).2.trace) := by
  obtain hmain := run_batch_main sh h inp (run_batch_force_plan sh h inp).1
    (run_batch_force_plan sh h inp).2 rfl
  rcases hmain with ⟨hst, hcode⟩ | ⟨bs, res, Δ, hbs, hiff, f1, f2, f3, f4, f5, f6, f7⟩
  · rw [hst]
    refine ⟨rfl, ?_, ?_, ?_⟩
    · simp [st0, hcode]
    · intro h99
      exact absurd h99 hcode
    · intro h99
      exact absurd h99 hcode
  · refine ⟨?_, ?_, ?_, ?_⟩
    · rw [f1]
      show pollsAtBoundariesFrom none
        (Event.sweepStart (unionBounds bs) :: Δ) = true
      rw [pollsFrom_cons_nonpoll none (Event.sweepStart (unionBounds bs)) _ rfl]
      exact f6 _
    · have hmm : (Event.poll true ∈ (run_batch_force_plan sh h inp).2.trace) ↔
          Event.poll true ∈ Δ := by
        rw [f1]
        show Event.poll true ∈ Event.sweepStart (unionBounds bs) :: Δ ↔ _
        simp
      exact hmm.trans (f3.trans hiff.symm)
    · intro h99
      obtain ⟨Δ₀, Δ₂, hsplit, hnp0, hap2⟩ := f4 (hiff.mp h99)
      refine ⟨Event.sweepStart (unionBounds bs) :: Δ₀, Δ₂, ?_, ?_, hap2, ?_⟩
      · rw [f1, hsplit]
        rfl
      · intro hmem
        rcases List.mem_cons.mp hmem with h1 | h1
        · exact absurd h1 (by simp)
        · exact hnp0 h1
      · intro k i c v hmem
        have := hap2 _ hmem
        simp [postCancelOk] at this
    · intro _
      refine f7 (Or.inl ⟨?_, ?_⟩)
      · show |(0 : ℚ)| ≤ eps9
        norm_num [eps9]
      · show |(0 : ℚ)| ≤ eps9
        norm_num [eps9]

/-- C6 counterexample: with a host that reports cancellation at the first
position poll and whose restoring move fails, the run returns the
cancellation code 99 but the final cumulative displacement is `(1, 0)` — the
geometry does not end at the case's baseline (a restore warning is reported
instead). -/
theorem C6_counterexample :
    (run_batch_force_plan setupW hostCancelAt2 inpCancel).1 = 99 ∧
    eps9 < |(run_batch_force_plan setupW hostCancelAt2 inpCancel).2.curX| ∧
    Event.warnRestore ∈ (run_batch_force_plan setupW hostCancelAt2 inpCancel).2.trace := by
  have h0 : run_batch_force_plan setupW hostCancelAt2 inpCancel =
      (match runCases hostCancelAt2 inpCancel rectW (1, 0) 1 [[("A", 100)]] stC0 with
       | (some c, st) => (c, st)
       | (none, st) => (0, st)) := rfl
  have hpoll1 : doPoll hostCancelAt2 { stC0 with trace := stC0.trace ++ [Event.caseStart 1] } =
      (false, stC1) := rfl
  have hprep : prepCase inpCancel rectW [("A", 100)] stC1 = stC2 := rfl
  have dcond : ¬(|((1 : ℚ), (0 : ℚ)).1 - stC2.curX| ≤ eps9 ∧
      |((1 : ℚ), (0 : ℚ)).2 - stC2.curY| ≤ eps9) := by
    norm_num [stC2, stC0, st0, eps9]
  have hmv : move_by_xy hostCancelAt2 stC2 (((1 : ℚ), (0 : ℚ)).1 - stC2.curX)
      (((1 : ℚ), (0 : ℚ)).2 - stC2.curY) = (true, stC3) := by
    unfold move_by_xy
    rw [if_neg dcond, show hostCancelAt2.move stC2.nMove = true from rfl]
    rfl
  have hcb : caseBody hostCancelAt2 inpCancel 1 (1, 0) stC2 =
      runPositions hostCancelAt2 inpCancel 1 inpCancel.positions stC3 := by
    unfold caseBody
    rw [hmv]
    rfl
  have hpos : inpCancel.positions = [((1 : ℚ), (0 : ℚ)), ((2 : ℚ), (0 : ℚ))] := rfl
  have hpoll2 : doPoll hostCancelAt2
      { stC3 with trace := stC3.trace ++ [Event.posStart ((1 : ℚ), (0 : ℚ))] } =
      (true, stC4) := rfl
  have hrp : runPositions hostCancelAt2 inpCancel 1 inpCancel.positions stC3 =
      (CaseExit.cancelledBrk, stC4) := by
    rw [hpos, runPositions_cons, hpoll2]
  have dpos : eps9 < |stC4.curX| ∨ eps9 < |stC4.curY| := by
    left
    norm_num [stC4, stC3, stC2, stC0, st0, eps9]
  have dneg2 : ¬(|(-stC4.curX)| ≤ eps9 ∧ |(-stC4.curY)| ≤ eps9) := by
    norm_num [stC4, stC3, stC2, stC0, st0, eps9]
  have hmove2 : hostCancelAt2.move
      ({ stC4 with trace := stC4.trace ++ [Event.restoreStart] } : St).nMove = false := rfl
  have hmv2 : move_by_xy hostCancelAt2 { stC4 with trace := stC4.trace ++ [Event.restoreStart] }
      (-stC4.curX) (-stC4.curY) = (false, stC5a) := by
    unfold move_by_xy
    rw [if_neg dneg2, hmove2]
    rfl
  have hfin : caseFinally hostCancelAt2 inpCancel stC4 = stC5 := by
    unfold caseFinally
    rw [if_pos dpos, hmv2]
    rfl
  have h1 : runCases hostCancelAt2 inpCancel rectW (1, 0) 1 [[("A", 100)]] stC0 =
      (some 99, stC5) := by
    simp only [runCases]
    rw [hpoll1]
    simp only
    rw [hprep, hcb, hrp]
    simp only
    rw [hfin]
  have hfull : run_batch_force_plan setupW hostCancelAt2 inpCancel = (99, stC5) := by
    rw [h0, h1]
  rw [hfull]
  refine ⟨rfl, ?_, ?_⟩
  · norm_num [stC5, stC5a, stC4, stC3, stC2, stC0, st0, eps9]
  · simp [stC5, stC5a, stC4, stC3, stC2, stC0, st0]

/-- C4 witness: a state displaced by `(1, 0)` against an always-failing move
host exercises the restore path — the restoring move `(-1, -0)` is attempted,
the restore warning is reported, and an abort code 8 from the body is
returned unchanged by the case loop. -/
theorem C4_restore_witness :
    (eps9 < |stW.curX| ∨ eps9 < |stW.curY|) ∧
    ((∃ ok cx cy rc, Event.moveEvt (-stW.curX) (-stW.curY) ok cx cy rc ∈
        (caseFinally hostMoveFail inpW stW).trace) ∧
      (((caseFinally hostMoveFail inpW stW).curX = 0 ∧
        (caseFinally hostMoveFail inpW stW).curY = 0) ∨
        Event.warnRestore ∈ (caseFinally hostMoveFail inpW stW).trace)) ∧
    hostMoveFail.cancel st0.nCancel = false ∧
    (runCases hostMoveFail inpCancel rectW (1, 0) 1 [[("A", 100)]] st0).1 = some 8 := by
  have hfar : eps9 < |stW.curX| ∨ eps9 < |stW.curY| := by
    left
    norm_num [stW, st0, eps9]
  have h1 : (caseBody hostMoveFail inpCancel 1 (1, 0)
      (prepCase inpCancel rectW [("A", 100)]
        (doPoll hostMoveFail { st0 with
          trace := st0.trace ++ [Event.caseStart 1] }).2)).1 = CaseExit.abort 8 := by
    rcases move_by_xy_cases hostMoveFail
        (prepCase inpCancel rectW [("A", 100)]
          (doPoll hostMoveFail { st0 with
            trace := st0.trace ++ [Event.caseStart 1] }).2)
        (((1 : ℚ), (0 : ℚ)).1 - (prepCase inpCancel rectW [("A", 100)]
          (doPoll hostMoveFail { st0 with
            trace := st0.trace ++ [Event.caseStart 1] }).2).curX)
        (((1 : ℚ), (0 : ℚ)).2 - (prepCase inpCancel rectW [("A", 100)]
          (doPoll hostMoveFail { st0 with
            trace := st0.trace ++ [Event.caseStart 1] }).2).curY) with
      ⟨a1, a2, hx⟩ | ⟨h9, hok, hx⟩ | ⟨h9, hok, hx⟩
    · norm_num [prepCase, applyFields, doPoll, st0, hostMoveFail, hostW, inpCancel,
        eps9] at a1
    · rw [show hostMoveFail.move (prepCase inpCancel rectW [("A", 100)]
        (doPoll hostMoveFail { st0 with
          trace := st0.trace ++ [Event.caseStart 1] }).2).nMove = false from rfl] at hok
      exact absurd hok (by simp)
    · unfold caseBody
      rw [hx]
  have hbody : caseBody hostMoveFail inpCancel 1 (1, 0)
      (prepCase inpCancel rectW [("A", 100)]
        (doPoll hostMoveFail { st0 with
          trace := st0.trace ++ [Event.caseStart 1] }).2) =
      (CaseExit.abort 8,
       (caseBody hostMoveFail inpCancel 1 (1, 0)
        (prepCase inpCancel rectW [("A", 100)]
          (doPoll hostMoveFail { st0 with
            trace := st0.trace ++ [Event.caseStart 1] }).2)).2) := by
    rw [← h1]
  exact ⟨hfar, ((C4_restore hostMoveFail inpW).1 stW).2 hfar, rfl,
    by rw [(C4_restore hostMoveFail inpCancel).2 rectW (1, 0) 1 [("A", 100)] [] st0 8 _
      rfl hbody]⟩

end QF
